import Mathlib

/-!
Verification development for the SteamPermaLink bot (src/index.ts).

Strings are modelled as `List Char`. The five Steam regexes of the source
(case-insensitive, greedy quantifiers, trailing lookahead) are embedded as an
executable matcher; JavaScript `Map`s become association lists; the external
Steam resolver (`api.resolve`) is a parameter of the functions that may call
it, so "never invokes the external resolver" is expressible.
-/

set_option maxRecDepth 4000

namespace SteamPermaLink

/-! ## Character classes (JS regex semantics) -/

/-- ASCII code point of a character. -/
def charCode (c : Char) : Nat := c.toNat

/-- JS `\d`: ASCII decimal digit. -/
def isDigitChar (c : Char) : Bool := 48 ≤ charCode c && charCode c ≤ 57

/-- JS `\w`: ASCII word character `[A-Za-z0-9_]`. -/
def wordChar (c : Char) : Bool :=
  (65 ≤ charCode c && charCode c ≤ 90) || (97 ≤ charCode c && charCode c ≤ 122) ||
  isDigitChar c || charCode c = 95

/-- The capture class `[A-Za-z0-9_-]` used for vanity / user / group names. -/
def idChar (c : Char) : Bool := wordChar c || charCode c = 45

/-- JS `\s` (also the set trimmed by `String.prototype.trim`). -/
def jsWhitespace (c : Char) : Bool :=
  charCode c = 32 || charCode c = 9 || charCode c = 10 || charCode c = 13 ||
  charCode c = 11 || charCode c = 12 || charCode c = 0xa0 || charCode c = 0x1680 ||
  (0x2000 ≤ charCode c && charCode c ≤ 0x200a) || charCode c = 0x2028 ||
  charCode c = 0x2029 || charCode c = 0x202f || charCode c = 0x205f ||
  charCode c = 0x3000 || charCode c = 0xfeff

/-- The delimiter class of the positive lookahead in every Steam regex. -/
def delimChar (c : Char) : Bool :=
  jsWhitespace c || charCode c = 41 || charCode c = 93 || charCode c = 125 ||
  charCode c = 62 || charCode c = 34 || charCode c = 39 || charCode c = 46 ||
  charCode c = 44 || charCode c = 33 || charCode c = 63

/-- ASCII lower-casing, the case folding relevant to the `/i` flag on the
ASCII-only literals of the source regexes (and to `toLowerCase` on the
ASCII-only captures). -/
def lowerChar (c : Char) : Char :=
  if 65 ≤ charCode c ∧ charCode c ≤ 90 then Char.ofNat (charCode c + 32) else c

/-! ## String helpers of the source -/

/-- `String.prototype.trim`. -/
def trimChars (cs : List Char) : List Char :=
  ((cs.dropWhile jsWhitespace).reverse.dropWhile jsWhitespace).reverse

/-- `replace(/^<|>$/g, '')`: one leading `<` and one trailing `>` removed. -/
def stripAngle (cs : List Char) : List Char :=
  let a := if cs.head? = some '<' then cs.tail else cs
  if a.getLast? = some '>' then a.dropLast else a

/-- `normalizeInput` (src/index.ts:329): trim, then strip `<...>` wrapping. -/
def normalizeInput (cs : List Char) : List Char := stripAngle (trimChars cs)

/-- `isSteamId64` (src/index.ts:333): `/^\d{15,25}$/.test(s.trim())`. -/
def isSteamId64 (cs : List Char) : Bool :=
  let t := trimChars cs
  decide (15 ≤ t.length) && decide (t.length ≤ 25) && t.all isDigitChar

/-- `ensureUrl` (src/index.ts:337): prepend `https://` unless it starts with
`http` (case-sensitive `startsWith`). -/
def ensureUrl (cs : List Char) : List Char :=
  let v := trimChars cs
  if "http".data.isPrefixOf v then v else "https://".data ++ v

/-! ## Generic list helpers of the source -/

/-- Worker for `uniqueStable`, carrying the set of already-seen values. -/
def uniqueStableAux {α : Type} [DecidableEq α] (seen : List α) : List α → List α
  | [] => []
  | x :: xs =>
    if x ∈ seen then uniqueStableAux seen xs else x :: uniqueStableAux (x :: seen) xs

/-- `uniqueStable` (src/index.ts:317): first-occurrence de-duplication. -/
def uniqueStable {α : Type} [DecidableEq α] (l : List α) : List α := uniqueStableAux [] l

/-- JS `Map.prototype.get` on an association list (first matching key). -/
def lookupA {κ ν : Type} [DecidableEq κ] (k : κ) : List (κ × ν) → Option ν
  | [] => none
  | (k', v) :: t => if k' = k then some v else lookupA k t

/-- JS `Map.prototype.set`: replace the value in place, else append. -/
def mapSet {κ ν : Type} [DecidableEq κ] (k : κ) (v : ν) : List (κ × ν) → List (κ × ν)
  | [] => [(k, v)]
  | (k', v') :: t => if k' = k then (k, v) :: t else (k', v') :: mapSet k v t

/-- JS `Map.prototype.has`. -/
def mapHas {κ ν : Type} [DecidableEq κ] (k : κ) (m : List (κ × ν)) : Bool :=
  (lookupA k m).isSome

/-- `String.prototype.includes` (case-sensitive substring test). -/
def containsSub (needle : List Char) : List Char → Bool
  | [] => decide (needle = [])
  | c :: t => needle.isPrefixOf (c :: t) || containsSub needle t

/-- Maximal prefix of characters satisfying a class, plus the rest. -/
def takeRun (cls : Char → Bool) : List Char → List Char × List Char
  | [] => ([], [])
  | c :: cs =>
    if cls c then
      let (a, b) := takeRun cls cs
      (c :: a, b)
    else ([], c :: cs)

/-! ## The Steam regex matcher

Every regex of the source has the shape
`(?:https?:\/\/)?(?:www\.)?steamcommunity\.com/<path>/(<class>{min,max})(?=$|[\s)\]}>"'.,!?])`
(the two fallback regexes in `makeGroupFromInput` drop the optional prefix
groups and the lookahead).  The optional prefix groups expand, in the
backtracking order of the JS engine, to six literal alternatives; the greedy
quantifier backtracks against the lookahead. -/

structure SteamPattern where
  prefixes : List (List Char)
  cls : Char → Bool
  minLen : Nat
  maxLen : Option Nat
  lookahead : Bool

/-- Case-insensitive literal match: the pattern is given lower-cased. -/
def matchLitCI : List Char → List Char → Option (List Char)
  | [], cs => some cs
  | _ :: _, [] => none
  | p :: ps, c :: cs => if lowerChar c = p then matchLitCI ps cs else none

/-- Try the literal prefix alternatives in backtracking order; return the
consumed input characters (original casing) and the rest. -/
def matchPrefixes : List (List Char) → List Char → Option (List Char × List Char)
  | [], _ => none
  | l :: ls, cs =>
    match matchLitCI l cs with
    | some rest => some (cs.take l.length, rest)
    | none => matchPrefixes ls cs

/-- True at the position of the lookahead `(?=$|[\s)\]}>"'.,!?])`. -/
def atEndOrDelim : List Char → Bool
  | [] => true
  | c :: _ => delimChar c

/-- Greedy backtracking of the capture length: largest `k ≤ fuel` with
`minLen ≤ k` whose lookahead position is end-of-input or a delimiter. -/
def findCapLen (rest : List Char) (minLen : Nat) : Nat → Option Nat
  | 0 => if minLen = 0 && atEndOrDelim rest then some 0 else none
  | k + 1 =>
    if minLen ≤ k + 1 && atEndOrDelim (rest.drop (k + 1)) then some (k + 1)
    else findCapLen rest minLen k

/-- Match a pattern at the current position; returns
(full match `m[0]`, capture `m[1]`, rest of the input). -/
def matchAt (pat : SteamPattern) (cs : List Char) :
    Option (List Char × List Char × List Char) :=
  match matchPrefixes pat.prefixes cs with
  | none => none
  | some (pre, rest) =>
    let run := (takeRun pat.cls rest).1
    let hi := match pat.maxLen with
      | none => run.length
      | some m => min run.length m
    let capLen? := if pat.lookahead then findCapLen rest pat.minLen hi
      else if pat.minLen ≤ hi && decide (0 < hi) then some hi else none
    match capLen? with
    | none => none
    | some k => some (pre ++ rest.take k, rest.take k, rest.drop k)

/-- `RegExp.prototype.exec` from position 0: first match, scanning forward. -/
def execFirst (pat : SteamPattern) : List Char → Option (List Char × List Char × List Char)
  | [] => matchAt pat []
  | c :: t =>
    match matchAt pat (c :: t) with
    | some r => some r
    | none => execFirst pat t

/-- Worker for `execAll` with fuel (every step consumes at least one
character for the patterns of the source, whose matches are non-empty). -/
def execAllAux (pat : SteamPattern) : Nat → List Char → List (List Char)
  | 0, _ => []
  | _ + 1, [] => []
  | fuel + 1, c :: t =>
    match matchAt pat (c :: t) with
    | some (full, _, rest) => full :: execAllAux pat fuel rest
    | none => execAllAux pat fuel t

/-- `String.prototype.matchAll`: all full matches `m[0]`, left to right. -/
def execAll (pat : SteamPattern) (cs : List Char) : List (List Char) :=
  execAllAux pat cs.length cs

/-- `extractFirstGroup` (src/index.ts:342): first match's capture group. -/
def extractFirstGroup (pat : SteamPattern) (cs : List Char) : Option (List Char) :=
  (execFirst pat cs).map (fun r => r.2.1)

/-- The six literal expansions of
`(?:https?:\/\/)?(?:www\.)?steamcommunity\.com/<path>`. -/
def hostPrefixes (path : List Char) : List (List Char) :=
  [ "https://www.".data, "https://".data, "http://www.".data, "http://".data,
    "www.".data, [] ].map (fun p => p ++ "steamcommunity.com/".data ++ path)

/-- `STEAM_VANITY_ID_REGEX` (src/index.ts:60). -/
def STEAM_VANITY_ID_REGEX : SteamPattern :=
  { prefixes := hostPrefixes "id/".data, cls := idChar, minLen := 1,
    maxLen := none, lookahead := true }

/-- `STEAM_USER_REGEX` (src/index.ts:62). -/
def STEAM_USER_REGEX : SteamPattern :=
  { prefixes := hostPrefixes "user/".data, cls := idChar, minLen := 1,
    maxLen := none, lookahead := true }

/-- `STEAM_PROFILE_REGEX` (src/index.ts:64). -/
def STEAM_PROFILE_REGEX : SteamPattern :=
  { prefixes := hostPrefixes "profiles/".data, cls := isDigitChar, minLen := 15,
    maxLen := some 25, lookahead := true }

/-- `STEAM_GROUPS_REGEX` (src/index.ts:68). -/
def STEAM_GROUPS_REGEX : SteamPattern :=
  { prefixes := hostPrefixes "groups/".data, cls := idChar, minLen := 1,
    maxLen := none, lookahead := true }

/-- `STEAM_GID_REGEX` (src/index.ts:70). -/
def STEAM_GID_REGEX : SteamPattern :=
  { prefixes := hostPrefixes "gid/".data, cls := isDigitChar, minLen := 15,
    maxLen := some 25, lookahead := true }

/-- Fallback `/steamcommunity\.com\/groups\/([A-Za-z0-9_-]+)/i`
(src/index.ts:244). -/
def FALLBACK_GROUPS_REGEX : SteamPattern :=
  { prefixes := ["steamcommunity.com/groups/".data], cls := idChar, minLen := 1,
    maxLen := none, lookahead := false }

/-- Fallback `/steamcommunity\.com\/gid\/(\d{15,25})/i` (src/index.ts:258). -/
def FALLBACK_GID_REGEX : SteamPattern :=
  { prefixes := ["steamcommunity.com/gid/".data], cls := isDigitChar, minLen := 15,
    maxLen := some 25, lookahead := false }

/-! ## `stripCodeBlocks` (src/index.ts:313)

`text.replace(/```[\s\S]*?```/g, '').replace(/`[^`]*`/g, '')`: first every
lazily-delimited triple-backtick fence is removed, then every inline
backtick span. -/

/-- The backtick character. -/
def btick : Char := Char.ofNat 96

/-- A triple-backtick fence delimiter. -/
def fenceLit : List Char := [btick, btick, btick]

/-- Input after the first occurrence of a closing triple-backtick fence. -/
def findFenceClose : List Char → Option (List Char)
  | [] => none
  | c :: t => if fenceLit.isPrefixOf (c :: t) then some ((c :: t).drop 3)
              else findFenceClose t

/-- One global-replace pass of `/```[\s\S]*?```/g` with fuel. -/
def stripFencesAux (fuel : Nat) (cs : List Char) : List Char :=
  match fuel, cs with
  | 0, cs => cs
  | _ + 1, [] => []
  | fuel + 1, c :: t =>
    if fenceLit.isPrefixOf (c :: t) then
      match findFenceClose ((c :: t).drop 3) with
      | some rest => stripFencesAux fuel rest
      | none => c :: stripFencesAux fuel t
    else c :: stripFencesAux fuel t

/-- `replace(/```[\s\S]*?```/g, '')`. -/
def stripFences (cs : List Char) : List Char := stripFencesAux cs.length cs

/-- Input after the next backtick, if any. -/
def afterNextBtick : List Char → Option (List Char)
  | [] => none
  | c :: t => if c = btick then some t else afterNextBtick t

/-- One global-replace pass of `` /`[^`]*`/g `` with fuel. -/
def stripInlineAux (fuel : Nat) (cs : List Char) : List Char :=
  match fuel, cs with
  | 0, cs => cs
  | _ + 1, [] => []
  | fuel + 1, c :: t =>
    if c = btick then
      match afterNextBtick t with
      | some rest => stripInlineAux fuel rest
      | none => c :: stripInlineAux fuel t
    else c :: stripInlineAux fuel t

/-- ``replace(/`[^`]*`/g, '')``. -/
def stripInline (cs : List Char) : List Char := stripInlineAux cs.length cs

/-- `stripCodeBlocks` (src/index.ts:313). -/
def stripCodeBlocks (cs : List Char) : List Char := stripInline (stripFences cs)

/-! ## Candidate extraction (src/index.ts:371) -/

/-- Matches of `/\b\d{15,25}\b/g`: maximal digit runs of length 15 to 25
delimited by non-word characters (or the ends of the text), with fuel. The
`prev` argument is the character before the current position, for the `\b`
assertions. -/
def bareDigitRunsAux (fuel : Nat) (prev : Option Char) (cs : List Char) :
    List (List Char) :=
  match fuel, cs with
  | 0, _ => []
  | _ + 1, [] => []
  | fuel + 1, c :: t =>
    if isDigitChar c && (match prev with | none => true | some p => !wordChar p) then
      let (run, rest) := takeRun isDigitChar (c :: t)
      let ok := decide (15 ≤ run.length) && decide (run.length ≤ 25) &&
        (match rest with | [] => true | r :: _ => !wordChar r)
      if ok then run :: bareDigitRunsAux fuel (some (run.getLastD c)) rest
      else bareDigitRunsAux fuel (some (run.getLastD c)) rest
    else bareDigitRunsAux fuel (some c) t

/-- All matches of `/\b\d{15,25}\b/g`. -/
def bareDigitRuns (cs : List Char) : List (List Char) :=
  bareDigitRunsAux cs.length none cs

/-- `text.split(/\r?\n/)`: `\n`, optionally preceded by `\r`, separates. -/
def splitLines : List Char → List (List Char)
  | [] => [[]]
  | '\r' :: '\n' :: t => [] :: splitLines t
  | '\n' :: t => [] :: splitLines t
  | c :: t =>
    match splitLines t with
    | l :: ls => (c :: l) :: ls
    | [] => [[c]]

/-- The loose per-line candidates of the bulk extractors: each line, trimmed
and angle-stripped, that contains the given host substring. -/
def linesContaining (needle : List Char) (text : List Char) : List (List Char) :=
  (splitLines text).filterMap (fun line =>
    let s := trimChars line
    let s := if s.head? = some '<' then s.tail else s
    let s := if s.getLast? = some '>' then s.dropLast else s
    if s = [] then none
    else if containsSub needle s then some s else none)

/-- `extractSteamCandidatesFromText` (src/index.ts:371). -/
def extractSteamCandidatesFromText (raw : List Char) : List (List Char) :=
  let text := stripCodeBlocks raw
  uniqueStable
    (execAll STEAM_VANITY_ID_REGEX text ++ execAll STEAM_USER_REGEX text ++
     execAll STEAM_PROFILE_REGEX text ++ bareDigitRuns text ++
     linesContaining "steamcommunity.com/".data text)

/-- `extractGroupCandidatesFromText` (src/index.ts:394). -/
def extractGroupCandidatesFromText (raw : List Char) : List (List Char) :=
  let text := stripCodeBlocks raw
  uniqueStable
    (execAll STEAM_GROUPS_REGEX text ++ execAll STEAM_GID_REGEX text ++
     (splitLines text).filterMap (fun line =>
        let s := trimChars line
        let s := if s.head? = some '<' then s.tail else s
        let s := if s.getLast? = some '>' then s.dropLast else s
        if s = [] then none
        else if containsSub "steamcommunity.com/groups/".data s ||
                containsSub "steamcommunity.com/gid/".data s then some s else none))

/-! ## Record store (src/index.ts:113-310) -/

/-- `StoredProfile` (src/index.ts:114). -/
structure StoredProfile where
  steamid64 : List Char
  note : Option (List Char)
  addedAt : Nat
deriving DecidableEq

/-- `UpsertResult` (src/index.ts:143). -/
inductive UpsertResult where
  | added
  | updated
  | alreadyExists
deriving DecidableEq

/-- `note?.trim() || undefined` and the falsiness test `!trimmed`: a missing
or all-whitespace note becomes absent, otherwise it is trimmed. -/
def noteNorm : Option (List Char) → Option (List Char)
  | none => none
  | some n => let t := trimChars n; if t = [] then none else some t

/-- `upsertProfile` (src/index.ts:145): the first record with the same
`steamid64` is kept (`exists`) or gets its note replaced (`updated`,
`addedAt` preserved); otherwise a new record is appended (`added`). -/
def upsertProfile (now : Nat) (steamid64 : List Char) (note : Option (List Char)) :
    List StoredProfile → List StoredProfile × UpsertResult
  | [] => ([{ steamid64 := steamid64, note := noteNorm note, addedAt := now }],
           .added)
  | p :: rest =>
    if p.steamid64 = steamid64 then
      match noteNorm note with
      | none => (p :: rest, .alreadyExists)
      | some t =>
        if p.note = some t then (p :: rest, .alreadyExists)
        else ({ p with note := some t } :: rest, .updated)
    else
      let (rest', r) := upsertProfile now steamid64 note rest
      (p :: rest', r)

/-- First stored profile with the given `steamid64` (`Array.findIndex`'s
first hit). -/
def findProfile (steamid64 : List Char) : List StoredProfile → Option StoredProfile
  | [] => none
  | p :: rest => if p.steamid64 = steamid64 then some p else findProfile steamid64 rest

/-- `StoredGroup` (src/index.ts:178). -/
structure StoredGroup where
  key : List Char
  url : List Char
  gid64 : Option (List Char) := none
  name : Option (List Char) := none
  note : Option (List Char) := none
  addedAt : Nat
deriving DecidableEq

/-- `makeGroupFromInput` (src/index.ts:214): gid URL, then groups URL, then
the two protocol-less fallbacks gated by case-sensitive `includes`. -/
def makeGroupFromInput (now : Nat) (inputRaw : List Char) (note : Option (List Char)) :
    Option StoredGroup :=
  let input := normalizeInput inputRaw
  match extractFirstGroup STEAM_GID_REGEX input with
  | some gid => some
      { key := "gid:".data ++ gid,
        url := "https://steamcommunity.com/gid/".data ++ gid,
        gid64 := some gid, note := noteNorm note, addedAt := now }
  | none =>
  match extractFirstGroup STEAM_GROUPS_REGEX input with
  | some name => some
      { key := "groups:".data ++ name.map lowerChar,
        url := "https://steamcommunity.com/groups/".data ++ name,
        name := some name, note := noteNorm note, addedAt := now }
  | none =>
  match (if containsSub "steamcommunity.com/groups/".data input then
           extractFirstGroup FALLBACK_GROUPS_REGEX input else none) with
  | some nm => some
      { key := "groups:".data ++ nm.map lowerChar,
        url := "https://steamcommunity.com/groups/".data ++ nm,
        name := some nm, note := noteNorm note, addedAt := now }
  | none =>
  match (if containsSub "steamcommunity.com/gid/".data input then
           extractFirstGroup FALLBACK_GID_REGEX input else none) with
  | some gid2 => some
      { key := "gid:".data ++ gid2,
        url := "https://steamcommunity.com/gid/".data ++ gid2,
        gid64 := some gid2, note := noteNorm note, addedAt := now }
  | none => none

/-- `upsertGroup` (src/index.ts:274), keyed by `key`. -/
def upsertGroup (group : StoredGroup) :
    List StoredGroup → List StoredGroup × UpsertResult
  | [] => ([group], .added)
  | g :: rest =>
    if g.key = group.key then
      match noteNorm group.note with
      | none => (g :: rest, .alreadyExists)
      | some t =>
        if g.note = some t then (g :: rest, .alreadyExists)
        else ({ g with note := some t } :: rest, .updated)
    else
      let (rest', r) := upsertGroup group rest
      (g :: rest', r)

/-- First stored group with the given key. -/
def findGroup (key : List Char) : List StoredGroup → Option StoredGroup
  | [] => none
  | g :: rest => if g.key = key then some g else findGroup key rest

/-! ## Identity resolver (src/index.ts:349) -/

/-- What `resolveToSteamId64` does with its (normalized) input: answer
directly, consult the external resolver, or fail. -/
inductive ResolveAction where
  | direct : List Char → ResolveAction
  | external : List Char → ResolveAction
  | failure : ResolveAction
deriving DecidableEq

/-- The decision logic of `resolveToSteamId64` (src/index.ts:349): bare
SteamID64 and `/profiles/` URLs are answered locally; vanity-looking inputs
are forwarded (protocol-prefixed) to the external resolver; everything else
fails. -/
def resolveAction (inputRaw : List Char) : ResolveAction :=
  let input := normalizeInput inputRaw
  if isSteamId64 input then .direct input
  else match extractFirstGroup STEAM_PROFILE_REGEX input with
  | some prof => .direct prof
  | none =>
    if (execFirst STEAM_VANITY_ID_REGEX input).isSome ||
       (execFirst STEAM_USER_REGEX input).isSome then
      .external (ensureUrl input)
    else .failure

/-- `resolveToSteamId64` with the external `api.resolve` as a parameter; a
`none` from the resolver models every failure the `catch` swallows. -/
def resolveToSteamId64 (resolver : List Char → Option (List Char))
    (inputRaw : List Char) : Option (List Char) :=
  match resolveAction inputRaw with
  | .direct s => some s
  | .external u => resolver u
  | .failure => none

/-! ## Bulk import (src/index.ts:446-516) -/

/-- `MAX_IMPORT_ITEMS` (src/index.ts:53). -/
def MAX_IMPORT_ITEMS : Nat := 300

/-- `ImportResult` (src/index.ts:446); `existsCount` is the `exists` field. -/
structure ImportResult where
  added : Nat
  updated : Nat
  existsCount : Nat
  failed : Nat
  processed : Nat
  found : Nat
  truncated : Bool
deriving DecidableEq

/-- The profile-import loop: counters (added, updated, exists, failed) and
the final store. A failed resolution increments `failed` and continues. -/
def importProfilesLoop (resolver : List Char → Option (List Char)) (now : Nat)
    (note : Option (List Char)) :
    List (List Char) → List StoredProfile → Nat × Nat × Nat × Nat × List StoredProfile
  | [], store => (0, 0, 0, 0, store)
  | item :: rest, store =>
    match resolveToSteamId64 resolver item with
    | none =>
      let (a, u, e, f, s) := importProfilesLoop resolver now note rest store
      (a, u, e, f + 1, s)
    | some id64 =>
      let (store', r) := upsertProfile now id64 note store
      let (a, u, e, f, s) := importProfilesLoop resolver now note rest store'
      match r with
      | .added => (a + 1, u, e, f, s)
      | .updated => (a, u + 1, e, f, s)
      | .alreadyExists => (a, u, e + 1, f, s)

/-- `importManyProfiles` (src/index.ts:456). -/
def importManyProfiles (resolver : List Char → Option (List Char)) (now : Nat)
    (candidates : List (List Char)) (note : Option (List Char))
    (store : List StoredProfile) : ImportResult × List StoredProfile :=
  let list := candidates.take MAX_IMPORT_ITEMS
  let (a, u, e, f, store') := importProfilesLoop resolver now note list store
  ({ added := a, updated := u, existsCount := e, failed := f,
     processed := list.length, found := candidates.length,
     truncated := decide (MAX_IMPORT_ITEMS < candidates.length) }, store')

/-- The group-import loop. -/
def importGroupsLoop (now : Nat) (note : Option (List Char)) :
    List (List Char) → List StoredGroup → Nat × Nat × Nat × Nat × List StoredGroup
  | [], store => (0, 0, 0, 0, store)
  | item :: rest, store =>
    match makeGroupFromInput now item note with
    | none =>
      let (a, u, e, f, s) := importGroupsLoop now note rest store
      (a, u, e, f + 1, s)
    | some g =>
      let (store', r) := upsertGroup g store
      let (a, u, e, f, s) := importGroupsLoop now note rest store'
      match r with
      | .added => (a + 1, u, e, f, s)
      | .updated => (a, u + 1, e, f, s)
      | .alreadyExists => (a, u, e + 1, f, s)

/-- `importManyGroups` (src/index.ts:487). -/
def importManyGroups (now : Nat) (candidates : List (List Char))
    (note : Option (List Char)) (store : List StoredGroup) :
    ImportResult × List StoredGroup :=
  let list := candidates.take MAX_IMPORT_ITEMS
  let (a, u, e, f, store') := importGroupsLoop now note list store
  ({ added := a, updated := u, existsCount := e, failed := f,
     processed := list.length, found := candidates.length,
     truncated := decide (MAX_IMPORT_ITEMS < candidates.length) }, store')

/-! ## Pagination (src/index.ts:685-690 and 806-811) -/

/-- `LIST_PAGE_SIZE` (src/index.ts:56). -/
def LIST_PAGE_SIZE : Nat := 10

/-- The pagination of the `list` subcommands (identical for profiles,
src/index.ts:685-690, and groups, src/index.ts:806-811): clamp the requested
page into `[1, totalPages]` and slice. Returns (page, totalPages, slice). -/
def listPageSlice {α : Type} (records : List α) (requested : Int) :
    Nat × Nat × List α :=
  let totalPages : Nat :=
    max 1 ((records.length + LIST_PAGE_SIZE - 1) / LIST_PAGE_SIZE)
  let page : Int := min (max requested 1) (totalPages : Int)
  let p : Nat := page.toNat
  let start := (p - 1) * LIST_PAGE_SIZE
  (p, totalPages, (records.drop start).take LIST_PAGE_SIZE)

/-! ## Anti-spam guard and message handler (src/index.ts:49-82, 879-975) -/

/-- `USER_COOLDOWN_MS` (src/index.ts:50). -/
def USER_COOLDOWN_MS : Nat := 8000

/-- `MESSAGE_REPLY_TTL_MS` (src/index.ts:51). -/
def MESSAGE_REPLY_TTL_MS : Nat := 3600000

/-- `cleanupRepliedMessages` (src/index.ts:77): lazily drop every entry whose
timestamp is older than the TTL. -/
def cleanupRepliedMessages (now : Nat) (m : List (List Char × Nat)) :
    List (List Char × Nat) :=
  m.filter (fun e => !(decide (MESSAGE_REPLY_TTL_MS < now - e.2)))

/-- The mutable state the message handler touches: the per-guild settings
file and the two anti-spam maps. -/
structure BotState where
  guildSettings : List (List Char × Bool)
  repliedMessageIds : List (List Char × Nat)
  lastReplyAtByUser : List (List Char × Nat)
deriving DecidableEq

/-- The fields of an inbound Discord message that `handleMessage` reads. -/
structure Msg where
  content : List Char
  authorIsBot : Bool
  authorId : List Char
  guildId : Option (List Char)
  msgId : List Char
deriving DecidableEq

/-- `isPermalinkEnabled` (src/index.ts:105): stored flag, default on. -/
def isPermalinkEnabled (settings : List (List Char × Bool)) (guildId : List Char) :
    Bool :=
  (lookupA guildId settings).getD true

/-- `handleMessage` (src/index.ts:879), with `Date.now()` and the external
resolver as parameters.  `replyOk = false` models `message.reply` throwing:
the `catch` swallows the error, so the anti-spam maps gain no entries (but
the lazy TTL purge has already run).  Returns the state and whether a reply
was sent. -/
def handleMessage (resolver : List Char → Option (List Char)) (now : Nat)
    (st : BotState) (msg : Msg) (replyOk : Bool) : BotState × Bool :=
  if msg.content = [] then (st, false)
  else if msg.authorIsBot = true then (st, false)
  else match msg.guildId with
  | none => (st, false)
  | some gid =>
    if isPermalinkEnabled st.guildSettings gid = false then (st, false)
    else
      let replied := cleanupRepliedMessages now st.repliedMessageIds
      let st1 : BotState := { st with repliedMessageIds := replied }
      if mapHas msg.msgId replied = true then (st1, false)
      else if now - ((lookupA msg.authorId st.lastReplyAtByUser).getD 0) <
              USER_COOLDOWN_MS then (st1, false)
      else
        let content := stripCodeBlocks msg.content
        let vanityMatches := execAll STEAM_VANITY_ID_REGEX content
        let userMatches := execAll STEAM_USER_REGEX content
        let profileMatches := execAll STEAM_PROFILE_REGEX content
        let groupsMatches := execAll STEAM_GROUPS_REGEX content
        let gidMatches := execAll STEAM_GID_REGEX content
        if vanityMatches = [] ∧ userMatches = [] ∧ profileMatches = [] ∧
           groupsMatches = [] ∧ gidMatches = [] then (st1, false)
        else
          let profilePermalinks :=
            profileMatches.filterMap (fun u =>
              (extractFirstGroup STEAM_PROFILE_REGEX u).map
                (fun id => "https://steamcommunity.com/profiles/".data ++ id)) ++
            (vanityMatches ++ userMatches).filterMap (fun u =>
              (resolveToSteamId64 resolver u).map
                (fun id => "https://steamcommunity.com/profiles/".data ++ id))
          let groupLinks :=
            gidMatches.filterMap (fun u =>
              (extractFirstGroup STEAM_GID_REGEX u).map
                (fun g => "https://steamcommunity.com/gid/".data ++ g)) ++
            groupsMatches.filterMap (fun u =>
              (extractFirstGroup STEAM_GROUPS_REGEX u).map
                (fun g => "https://steamcommunity.com/groups/".data ++ g))
          let uniqueProfiles := uniqueStable profilePermalinks
          let uniqueGroups := uniqueStable groupLinks
          if uniqueProfiles = [] ∧ uniqueGroups = [] then (st1, false)
          else if replyOk = true then
            ({ st1 with
                repliedMessageIds := mapSet msg.msgId now replied,
                lastReplyAtByUser := mapSet msg.authorId now st.lastReplyAtByUser },
             true)
          else (st1, false)

/-! ## Statement helpers and concrete fixtures -/

/-- Every prefix alternative of a pattern is non-empty and starts with a
non-digit character (true of all seven patterns above); a digit can then
never begin a match. -/
def nonDigitHeads (pfxs : List (List Char)) : Bool :=
  pfxs.all (fun l => match l with | [] => false | p :: _ => !isDigitChar p)

/-- Fixture: empty bot state (fresh process, empty settings file). -/
def stEmpty : BotState :=
  { guildSettings := [], repliedMessageIds := [], lastReplyAtByUser := [] }

/-- Fixture: bot state holding one stale replied-message entry. -/
def stStale : BotState :=
  { guildSettings := [], repliedMessageIds := [("old".data, 0)],
    lastReplyAtByUser := [] }

/-- Fixture: a guild message containing a numeric Steam profile URL. -/
def msgFix1 : Msg :=
  { content := "check steamcommunity.com/profiles/765611980000000001".data,
    authorIsBot := false, authorId := "alice".data,
    guildId := some "g".data, msgId := "m1".data }

/-- Fixture: a second qualifying message by the same author. -/
def msgFix2 : Msg :=
  { content := "steamcommunity.com/profiles/765611980000000002".data,
    authorIsBot := false, authorId := "alice".data,
    guildId := some "g".data, msgId := "m2".data }

/-! ## Character and trimming lemmas -/

theorem isDigitChar_code {c : Char} (h : isDigitChar c = true) :
    48 ≤ charCode c ∧ charCode c ≤ 57 := by
  simpa [isDigitChar, Bool.and_eq_true, decide_eq_true_eq] using h

theorem lowerChar_of_digit {c : Char} (h : isDigitChar c = true) : lowerChar c = c := by
  have hc := isDigitChar_code h
  rw [lowerChar, if_neg]
  omega

theorem jsWhitespace_of_digit {c : Char} (h : isDigitChar c = true) :
    jsWhitespace c = false := by
  have hc := isDigitChar_code h
  simp only [jsWhitespace, Bool.or_eq_false_iff, decide_eq_false_iff_not,
    Bool.and_eq_false_iff, decide_eq_true_eq]
  omega

theorem dropWhile_eq_self_of_none {p : Char → Bool} {l : List Char}
    (h : ∀ c ∈ l, p c = false) : l.dropWhile p = l := by
  cases l with
  | nil => rfl
  | cons c t =>
    rw [List.dropWhile_cons, if_neg]
    simp [h c (by simp)]

theorem trimChars_eq_self {l : List Char} (h : ∀ c ∈ l, jsWhitespace c = false) :
    trimChars l = l := by
  unfold trimChars
  rw [dropWhile_eq_self_of_none h, dropWhile_eq_self_of_none (fun c hc => h c (by
    simpa using hc)), List.reverse_reverse]

theorem normalizeInput_of_digits {l : List Char} (h : ∀ c ∈ l, isDigitChar c = true) :
    normalizeInput l = l := by
  have hhead : ¬ (l.head? = some '<') := by
    intro hh
    have hm : ('<' : Char) ∈ l := List.mem_of_mem_head? (by simp [hh])
    exact absurd (h _ hm) (by decide)
  have hlast : ¬ (l.getLast? = some '>') := by
    intro hh
    have hm : ('>' : Char) ∈ l := List.mem_of_mem_getLast? (by simp [hh])
    exact absurd (h _ hm) (by decide)
  unfold normalizeInput stripAngle
  rw [trimChars_eq_self (fun c hc => jsWhitespace_of_digit (h c hc))]
  simp [hhead, hlast]

/-! ## Matcher lemmas -/

theorem takeRun_append (cls : Char → Bool) (cs : List Char) :
    (takeRun cls cs).1 ++ (takeRun cls cs).2 = cs := by
  induction cs with
  | nil => rfl
  | cons c t ih =>
    simp only [takeRun]
    split
    · simpa using ih
    · rfl

theorem takeRun_all (cls : Char → Bool) (cs : List Char) :
    ∀ c ∈ (takeRun cls cs).1, cls c = true := by
  induction cs with
  | nil => simp [takeRun]
  | cons c t ih =>
    simp only [takeRun]
    split
    · intro x hx
      rcases List.mem_cons.mp hx with h | h
      · subst h; assumption
      · exact ih x h
    · simp

theorem findCapLen_bounds {rest : List Char} {minLen k n : Nat}
    (h : findCapLen rest minLen k = some n) : minLen ≤ n ∧ n ≤ k := by
  induction k with
  | zero =>
    simp only [findCapLen] at h
    split at h
    · rename_i hcond
      simp only [Bool.and_eq_true, decide_eq_true_eq] at hcond
      cases h
      omega
    · cases h
  | succ k ih =>
    simp only [findCapLen] at h
    split at h
    · rename_i hcond
      simp only [Bool.and_eq_true, decide_eq_true_eq] at hcond
      cases h
      omega
    · have := ih h
      omega

theorem matchAt_capture {pat : SteamPattern} {cs f cap r : List Char}
    (h : matchAt pat cs = some (f, cap, r)) :
    (∀ c ∈ cap, pat.cls c = true) ∧ pat.minLen ≤ cap.length ∧
      (∀ m, pat.maxLen = some m → cap.length ≤ m) := by
  unfold matchAt at h
  rcases hp : matchPrefixes pat.prefixes cs with _ | pre_rest
  · rw [hp] at h; cases h
  · obtain ⟨pre, rest⟩ := pre_rest
    rw [hp] at h
    simp only at h
    set run := (takeRun pat.cls rest).1 with hrun
    set hi := (match pat.maxLen with
      | none => run.length
      | some m => min run.length m) with hhi
    have hhile : hi ≤ run.length := by
      rw [hhi]
      cases pat.maxLen <;> simp
    have hhimax : ∀ m, pat.maxLen = some m → hi ≤ m := by
      intro m hm
      rw [hhi, hm]
      simp
    rcases hcl : (if pat.lookahead then findCapLen rest pat.minLen hi
        else if pat.minLen ≤ hi && decide (0 < hi) then some hi else none) with _ | k
    · rw [hcl] at h; cases h
    · rw [hcl] at h
      cases h
      have hk : pat.minLen ≤ k ∧ k ≤ hi := by
        split at hcl
        · exact findCapLen_bounds hcl
        · split at hcl
          · rename_i hcond
            simp only [Bool.and_eq_true, decide_eq_true_eq] at hcond
            cases hcl
            exact ⟨hcond.1, le_refl _⟩
          · cases hcl
      have hkrun : k ≤ run.length := le_trans hk.2 hhile
      have htake : rest.take k = run.take k := by
        conv_lhs => rw [← takeRun_append pat.cls rest]
        exact List.take_append_of_le_length hkrun
      constructor
      · intro c hc
        rw [htake] at hc
        exact takeRun_all pat.cls rest c (List.take_subset k run hc)
      constructor
      · rw [htake, List.length_take]
        omega
      · intro m hm
        rw [htake, List.length_take]
        have := hhimax m hm
        omega

theorem execFirst_capture {pat : SteamPattern} {cs f cap r : List Char}
    (h : execFirst pat cs = some (f, cap, r)) :
    (∀ c ∈ cap, pat.cls c = true) ∧ pat.minLen ≤ cap.length ∧
      (∀ m, pat.maxLen = some m → cap.length ≤ m) := by
  induction cs with
  | nil => exact matchAt_capture h
  | cons c t ih =>
    simp only [execFirst] at h
    rcases hm : matchAt pat (c :: t) with _ | r'
    · rw [hm] at h
      exact ih h
    · rw [hm] at h
      cases h
      exact matchAt_capture hm

theorem extractFirstGroup_capture {pat : SteamPattern} {cs cap : List Char}
    (h : extractFirstGroup pat cs = some cap) :
    (∀ c ∈ cap, pat.cls c = true) ∧ pat.minLen ≤ cap.length ∧
      (∀ m, pat.maxLen = some m → cap.length ≤ m) := by
  unfold extractFirstGroup at h
  rcases he : execFirst pat cs with _ | r'
  · rw [he] at h; cases h
  · obtain ⟨f, cap', r⟩ := r'
    rw [he] at h
    simp only [Option.map_some'] at h
    cases h
    exact execFirst_capture he

theorem matchPrefixes_none_of_digit_head {pfxs : List (List Char)}
    (hnd : nonDigitHeads pfxs = true) {cs : List Char}
    (hcs : ∀ c, cs.head? = some c → isDigitChar c = true) :
    matchPrefixes pfxs cs = none := by
  induction pfxs with
  | nil => rfl
  | cons l ls ih =>
    simp only [nonDigitHeads, List.all_cons, Bool.and_eq_true] at hnd
    obtain ⟨hl, hls⟩ := hnd
    rcases l with _ | ⟨p, ps⟩
    · simp at hl
    · simp only [Bool.not_eq_true'] at hl
      have hlit : matchLitCI (p :: ps) cs = none := by
        cases cs with
        | nil => rfl
        | cons c t =>
          have hc : isDigitChar c = true := hcs c rfl
          simp only [matchLitCI, lowerChar_of_digit hc]
          rw [if_neg]
          intro hcp
          rw [hcp] at hc
          rw [hc] at hl
          cases hl
      simp only [matchPrefixes, hlit]
      exact ih hls

theorem matchAt_none_of_prefixes {pat : SteamPattern} {cs : List Char}
    (h : matchPrefixes pat.prefixes cs = none) : matchAt pat cs = none := by
  unfold matchAt
  rw [h]

theorem execFirst_none_of_all_digits {pat : SteamPattern}
    (hnd : nonDigitHeads pat.prefixes = true) {cs : List Char}
    (h : ∀ c ∈ cs, isDigitChar c = true) : execFirst pat cs = none := by
  induction cs with
  | nil =>
    unfold execFirst
    exact matchAt_none_of_prefixes
      (matchPrefixes_none_of_digit_head hnd (fun c hc => by cases hc))
  | cons c t ih =>
    simp only [execFirst]
    rw [matchAt_none_of_prefixes (matchPrefixes_none_of_digit_head hnd (by
      intro x hx
      simp only [List.head?_cons, Option.some.injEq] at hx
      exact hx ▸ h c (by simp)))]
    exact ih (fun x hx => h x (List.mem_cons_of_mem c hx))

/-! ## C1: numeric inputs resolve locally, out-of-range digit strings fail -/

/-- C1: an input that after trimming and angle-bracket stripping is a string
of 15 to 25 decimal digits is returned unchanged by `resolveToSteamId64`
without consulting the external resolver (the action is `direct`, and the
result is the same for every resolver); an all-digit input of length below
15 or above 25 fails (`none`) for every resolver and is never classified as
a valid profile identity. -/
theorem resolveToSteamId64_numeric (input : List Char) :
    ((∀ c ∈ normalizeInput input, isDigitChar c = true) →
      15 ≤ (normalizeInput input).length → (normalizeInput input).length ≤ 25 →
      resolveAction input = .direct (normalizeInput input) ∧
      ∀ resolver, resolveToSteamId64 resolver input = some (normalizeInput input))
    ∧ ((∀ c ∈ input, isDigitChar c = true) →
      (input.length < 15 ∨ 25 < input.length) →
      resolveAction input = .failure ∧
      ∀ resolver, resolveToSteamId64 resolver input = none) := by
  constructor
  · intro hdig hlo hhi
    have hid : isSteamId64 (normalizeInput input) = true := by
      unfold isSteamId64
      rw [trimChars_eq_self (fun c hc => jsWhitespace_of_digit (hdig c hc))]
      simp only [Bool.and_eq_true, decide_eq_true_eq, List.all_eq_true]
      exact ⟨⟨hlo, hhi⟩, hdig⟩
    have ha : resolveAction input = .direct (normalizeInput input) := by
      unfold resolveAction
      rw [if_pos hid]
    refine ⟨ha, fun resolver => ?_⟩
    unfold resolveToSteamId64
    rw [ha]
  · intro hdig hlen
    have hn : normalizeInput input = input := normalizeInput_of_digits hdig
    have hid : isSteamId64 input = false := by
      unfold isSteamId64
      rw [trimChars_eq_self (fun c hc => jsWhitespace_of_digit (hdig c hc))]
      rcases hlen with hlen | hlen
      · simp only [Bool.and_eq_true, decide_eq_true_eq, Bool.and_eq_false_iff]
        left; left
        simpa using (by omega : ¬ (15 ≤ input.length))
      · simp only [Bool.and_eq_true, decide_eq_true_eq, Bool.and_eq_false_iff]
        left; right
        simpa using (by omega : ¬ (input.length ≤ 25))
    have hprof : execFirst STEAM_PROFILE_REGEX input = none :=
      execFirst_none_of_all_digits (by decide) hdig
    have hvan : execFirst STEAM_VANITY_ID_REGEX input = none :=
      execFirst_none_of_all_digits (by decide) hdig
    have huser : execFirst STEAM_USER_REGEX input = none :=
      execFirst_none_of_all_digits (by decide) hdig
    have ha : resolveAction input = .failure := by
      unfold resolveAction
      rw [hn, if_neg (by simp [hid])]
      unfold extractFirstGroup
      rw [hprof, hvan, huser]
      rfl
    refine ⟨ha, fun resolver => ?_⟩
    unfold resolveToSteamId64
    rw [ha]

/-- C1 witness: the theorem applied to concrete inputs on both sides. -/
theorem resolveToSteamId64_numeric_witness :
    resolveAction " <765611980000000001> ".data =
      .direct (normalizeInput " <765611980000000001> ".data) ∧
    resolveToSteamId64 (fun _ => some "X".data) "1234".data = none := by
  constructor
  · exact ((resolveToSteamId64_numeric " <765611980000000001> ".data).1
      (by decide) (by decide) (by decide)).1
  · exact ((resolveToSteamId64_numeric "1234".data).2
      (by decide) (Or.inl (by decide))).2 (fun _ => some "X".data)

/-! ## Association-list lemmas (JS `Map` model) -/

theorem lookupA_mapSet_self {κ ν : Type} [DecidableEq κ] (k : κ) (v : ν)
    (m : List (κ × ν)) : lookupA k (mapSet k v m) = some v := by
  induction m with
  | nil => simp [mapSet, lookupA]
  | cons e t ih =>
    obtain ⟨k', v'⟩ := e
    simp only [mapSet]
    by_cases hk : k' = k
    · rw [if_pos hk]
      simp [lookupA]
    · rw [if_neg hk]
      simp only [lookupA, if_neg hk]
      exact ih

theorem lookupA_filter {κ ν : Type} [DecidableEq κ] {k : κ} {v : ν}
    {m : List (κ × ν)} {p : κ × ν → Bool} (h : lookupA k m = some v)
    (hp : p (k, v) = true) : lookupA k (m.filter p) = some v := by
  induction m with
  | nil => cases h
  | cons e t ih =>
    obtain ⟨k', v'⟩ := e
    simp only [lookupA] at h
    by_cases hk : k' = k
    · rw [if_pos hk] at h
      cases h
      subst hk
      rw [List.filter_cons, if_pos hp]
      simp [lookupA]
    · rw [if_neg hk] at h
      rw [List.filter_cons]
      split
      · simp only [lookupA, if_neg hk]
        exact ih h
      · exact ih h

theorem mem_cleanup {now : Nat} {m : List (List Char × Nat)} {e : List Char × Nat} :
    e ∈ cleanupRepliedMessages now m ↔
      e ∈ m ∧ ¬ (MESSAGE_REPLY_TTL_MS < now - e.2) := by
  unfold cleanupRepliedMessages
  rw [List.mem_filter]
  simp

/-! ## Structural analysis of `handleMessage` -/

/-- Every run of `handleMessage` either returns before the cleanup with the
state untouched, returns after the cleanup with only the lazy TTL purge
applied, or (reply sent successfully) records the message ID and the
author's last-reply time; the successful branch requires the dedup and
cooldown guards to have passed. -/
theorem handleMessage_split (r : List Char → Option (List Char)) (now : Nat)
    (st : BotState) (msg : Msg) (ok : Bool) :
    handleMessage r now st msg ok = (st, false) ∨
    handleMessage r now st msg ok =
      ({ st with repliedMessageIds := cleanupRepliedMessages now st.repliedMessageIds },
       false) ∨
    (ok = true ∧
     mapHas msg.msgId (cleanupRepliedMessages now st.repliedMessageIds) = false ∧
     USER_COOLDOWN_MS ≤ now - ((lookupA msg.authorId st.lastReplyAtByUser).getD 0) ∧
     handleMessage r now st msg ok =
       ({ st with
           repliedMessageIds :=
             mapSet msg.msgId now (cleanupRepliedMessages now st.repliedMessageIds),
           lastReplyAtByUser := mapSet msg.authorId now st.lastReplyAtByUser }, true)) := by
  unfold handleMessage
  by_cases h1 : msg.content = []
  · rw [if_pos h1]; exact Or.inl rfl
  rw [if_neg h1]
  by_cases h2 : msg.authorIsBot = true
  · rw [if_pos h2]; exact Or.inl rfl
  rw [if_neg h2]
  rcases hg : msg.guildId with _ | gid
  · exact Or.inl rfl
  dsimp only
  by_cases h4 : isPermalinkEnabled st.guildSettings gid = false
  · rw [if_pos h4]; exact Or.inl rfl
  rw [if_neg h4]
  by_cases h5 : mapHas msg.msgId (cleanupRepliedMessages now st.repliedMessageIds) = true
  · rw [if_pos h5]; exact Or.inr (Or.inl rfl)
  rw [if_neg h5]
  by_cases h6 : now - ((lookupA msg.authorId st.lastReplyAtByUser).getD 0) <
      USER_COOLDOWN_MS
  · rw [if_pos h6]; exact Or.inr (Or.inl rfl)
  rw [if_neg h6]
  by_cases h7 : execAll STEAM_VANITY_ID_REGEX (stripCodeBlocks msg.content) = [] ∧
      execAll STEAM_USER_REGEX (stripCodeBlocks msg.content) = [] ∧
      execAll STEAM_PROFILE_REGEX (stripCodeBlocks msg.content) = [] ∧
      execAll STEAM_GROUPS_REGEX (stripCodeBlocks msg.content) = [] ∧
      execAll STEAM_GID_REGEX (stripCodeBlocks msg.content) = []
  · rw [if_pos h7]; exact Or.inr (Or.inl rfl)
  rw [if_neg h7]
  by_cases h8 : uniqueStable
        (List.filterMap (fun u =>
            Option.map (fun id => "https://steamcommunity.com/profiles/".data ++ id)
              (extractFirstGroup STEAM_PROFILE_REGEX u))
          (execAll STEAM_PROFILE_REGEX (stripCodeBlocks msg.content)) ++
        List.filterMap (fun u =>
            Option.map (fun id => "https://steamcommunity.com/profiles/".data ++ id)
              (resolveToSteamId64 r u))
          (execAll STEAM_VANITY_ID_REGEX (stripCodeBlocks msg.content) ++
           execAll STEAM_USER_REGEX (stripCodeBlocks msg.content))) = [] ∧
      uniqueStable
        (List.filterMap (fun u =>
            Option.map (fun g => "https://steamcommunity.com/gid/".data ++ g)
              (extractFirstGroup STEAM_GID_REGEX u))
          (execAll STEAM_GID_REGEX (stripCodeBlocks msg.content)) ++
        List.filterMap (fun u =>
            Option.map (fun g => "https://steamcommunity.com/groups/".data ++ g)
              (extractFirstGroup STEAM_GROUPS_REGEX u))
          (execAll STEAM_GROUPS_REGEX (stripCodeBlocks msg.content))) = []
  · rw [if_pos h8]; exact Or.inr (Or.inl rfl)
  rw [if_neg h8]
  by_cases h9 : ok = true
  · rw [if_pos h9]
    refine Or.inr (Or.inr ⟨h9, ?_, ?_, rfl⟩)
    · simpa using h5
    · omega
  · rw [if_neg h9]; exact Or.inr (Or.inl rfl)

/-- If `handleMessage` reports a sent reply, the state it returns is the
input state with the message ID recorded at `now` in the (purged)
replied-messages map and the author's last-reply time set to `now`. -/
theorem handleMessage_success_state {r : List Char → Option (List Char)} {now : Nat}
    {st : BotState} {msg : Msg} {ok : Bool}
    (h : (handleMessage r now st msg ok).2 = true) :
    handleMessage r now st msg ok =
      ({ st with
          repliedMessageIds :=
            mapSet msg.msgId now (cleanupRepliedMessages now st.repliedMessageIds),
          lastReplyAtByUser := mapSet msg.authorId now st.lastReplyAtByUser }, true) := by
  rcases handleMessage_split r now st msg ok with hc | hc | ⟨_, _, _, hc⟩
  · rw [hc] at h; cases h
  · rw [hc] at h; cases h
  · exact hc

/-! ## C5: per-message reply suppression within the TTL window -/

/-- C5: once a message has triggered a reply (at time `t`), its ID is
recorded with timestamp `t`, and re-processing any message carrying the
same ID within the retention window (`now - t ≤ MESSAGE_REPLY_TTL_MS`)
never produces a second reply; moreover the lazy purge run on each check
keeps exactly the entries that are at most `MESSAGE_REPLY_TTL_MS` old. -/
theorem replied_message_suppression
    (r1 r2 : List Char → Option (List Char)) (t now : Nat) (st : BotState)
    (msg msg2 : Msg) (ok2 : Bool)
    (hdid : (handleMessage r1 t st msg true).2 = true)
    (hid : msg2.msgId = msg.msgId)
    (hwin : now - t ≤ MESSAGE_REPLY_TTL_MS) :
    (handleMessage r2 now (handleMessage r1 t st msg true).1 msg2 ok2).2 = false ∧
    lookupA msg.msgId (handleMessage r1 t st msg true).1.repliedMessageIds = some t ∧
    (∀ (now' : Nat) (m : List (List Char × Nat)) (e : List Char × Nat),
      e ∈ cleanupRepliedMessages now' m ↔
        e ∈ m ∧ ¬ (MESSAGE_REPLY_TTL_MS < now' - e.2)) := by
  have hsucc := handleMessage_success_state hdid
  have hst1 : (handleMessage r1 t st msg true).1.repliedMessageIds =
      mapSet msg.msgId t (cleanupRepliedMessages t st.repliedMessageIds) := by
    rw [hsucc]
  have hlook : lookupA msg.msgId (handleMessage r1 t st msg true).1.repliedMessageIds =
      some t := by
    rw [hst1]
    exact lookupA_mapSet_self _ _ _
  refine ⟨?_, hlook, fun now' m e => mem_cleanup⟩
  rcases handleMessage_split r2 now (handleMessage r1 t st msg true).1 msg2 ok2 with
    hc | hc | ⟨_, hdedup, _, _⟩
  · rw [hc]
  · rw [hc]
  · exfalso
    have hlook2 : lookupA msg2.msgId
        (cleanupRepliedMessages now (handleMessage r1 t st msg true).1.repliedMessageIds) =
        some t := by
      rw [hid]
      exact lookupA_filter hlook (by
        simp only [Bool.not_eq_true', decide_eq_false_iff_not]
        omega)
    rw [mapHas, hlook2] at hdedup
    cases hdedup

/-- C5 witness: a concrete first reply, then re-processing the same message
ID within the window yields no second reply. -/
theorem replied_message_suppression_witness :
    (handleMessage (fun _ => none) 20000
      (handleMessage (fun _ => none) 10000 stEmpty msgFix1 true).1 msgFix1 true).2 =
      false :=
  (replied_message_suppression (fun _ => none) (fun _ => none) 10000 20000 stEmpty
    msgFix1 msgFix1 true (by decide) rfl (by decide)).1

/-! ## C6: per-user cooldown -/

/-- C6: a successful reply at time `t` sets the author's last-reply time to
`t` (the reply start, not per-message), and any later message by the same
author processed at a time `now` with `now - t < USER_COOLDOWN_MS` produces
no reply — so two qualifying messages from one author within the cooldown
interval yield exactly one reply in total. -/
theorem user_cooldown_suppression
    (r1 r2 : List Char → Option (List Char)) (t now : Nat) (st : BotState)
    (msg msg2 : Msg) (ok2 : Bool)
    (hdid : (handleMessage r1 t st msg true).2 = true)
    (hauthor : msg2.authorId = msg.authorId)
    (hcd : now - t < USER_COOLDOWN_MS) :
    (handleMessage r2 now (handleMessage r1 t st msg true).1 msg2 ok2).2 = false ∧
    lookupA msg.authorId (handleMessage r1 t st msg true).1.lastReplyAtByUser =
      some t := by
  have hsucc := handleMessage_success_state hdid
  have hlast : (handleMessage r1 t st msg true).1.lastReplyAtByUser =
      mapSet msg.authorId t st.lastReplyAtByUser := by
    rw [hsucc]
  have hlook : lookupA msg.authorId (handleMessage r1 t st msg true).1.lastReplyAtByUser =
      some t := by
    rw [hlast]
    exact lookupA_mapSet_self _ _ _
  refine ⟨?_, hlook⟩
  rcases handleMessage_split r2 now (handleMessage r1 t st msg true).1 msg2 ok2 with
    hc | hc | ⟨_, _, hcool, _⟩
  · rw [hc]
  · rw [hc]
  · exfalso
    rw [hauthor, hlook] at hcool
    simp only [Option.getD_some] at hcool
    omega

/-- C6 witness: two concrete qualifying messages from the same author 2
seconds apart produce one reply. -/
theorem user_cooldown_suppression_witness :
    (handleMessage (fun _ => none) 12000
      (handleMessage (fun _ => none) 10000 stEmpty msgFix1 true).1 msgFix2 true).2 =
      false :=
  (user_cooldown_suppression (fun _ => none) (fun _ => none) 10000 12000 stEmpty
    msgFix1 msgFix2 true (by decide) rfl (by decide)).1

/-! ## C10: anti-spam state versus reply failure (corrected) -/

/-- C10 counterexample: with a stale replied-message entry present and the
reply send failing, `handleMessage` swallows the error but the
replied-messages map is NOT left unchanged — the lazy purge (which runs
before the send) has removed the stale entry.  The same input with a
successful send does reply, so the failing step is exactly the send. -/
theorem handleMessage_failure_counterexample :
    (handleMessage (fun _ => none) 3700000 stStale msgFix1 true).2 = true ∧
    (handleMessage (fun _ => none) 3700000 stStale msgFix1 false).2 = false ∧
    (handleMessage (fun _ => none) 3700000 stStale msgFix1 false).1.repliedMessageIds ≠
      stStale.repliedMessageIds := by decide

/-- C10 amended: the message ID and the author's last-reply timestamp are
recorded only after the reply send completes successfully.  If the send
fails, the error is suppressed (no reply is reported), the per-user map is
left unchanged, and the replied-messages map gains no entries — though the
lazy TTL purge may already have removed expired entries — so a later
re-processing of the same message may still reply. -/
theorem handleMessage_atomic_update (r : List Char → Option (List Char)) (now : Nat)
    (st : BotState) (msg : Msg) :
    (handleMessage r now st msg false).2 = false ∧
    (handleMessage r now st msg false).1.lastReplyAtByUser = st.lastReplyAtByUser ∧
    (∀ e, e ∈ (handleMessage r now st msg false).1.repliedMessageIds →
       e ∈ st.repliedMessageIds) ∧
    ((handleMessage r now st msg true).2 = true →
      (handleMessage r now st msg true).1 =
        { st with
            repliedMessageIds :=
              mapSet msg.msgId now (cleanupRepliedMessages now st.repliedMessageIds),
            lastReplyAtByUser := mapSet msg.authorId now st.lastReplyAtByUser }) := by
  have hfail : (handleMessage r now st msg false) = (st, false) ∨
      (handleMessage r now st msg false) =
        ({ st with
            repliedMessageIds := cleanupRepliedMessages now st.repliedMessageIds },
         false) := by
    rcases handleMessage_split r now st msg false with hc | hc | ⟨hok, _, _, _⟩
    · exact Or.inl hc
    · exact Or.inr hc
    · cases hok
  refine ⟨?_, ?_, ?_, ?_⟩
  · rcases hfail with hc | hc <;> rw [hc]
  · rcases hfail with hc | hc <;> rw [hc]
  · rcases hfail with hc | hc <;> rw [hc]
    · exact fun e he => he
    · exact fun e he => (mem_cleanup.mp he).1
  · intro h
    have := handleMessage_success_state h
    rw [this]

/-- C10 amended witness: on a concrete successful send the recorded state is
exactly the characterized one. -/
theorem handleMessage_atomic_update_witness :
    (handleMessage (fun _ => none) 10000 stEmpty msgFix1 true).1 =
      { stEmpty with
          repliedMessageIds :=
            mapSet msgFix1.msgId 10000
              (cleanupRepliedMessages 10000 stEmpty.repliedMessageIds),
          lastReplyAtByUser := mapSet msgFix1.authorId 10000 stEmpty.lastReplyAtByUser } := by
  have h := (handleMessage_atomic_update (fun _ => none) 10000 stEmpty msgFix1).2.2.2
    (by decide)
  rw [h]

/-! ## Upsert lemmas -/

theorem upsertProfile_cons_ne {now : Nat} {id : List Char} {note : Option (List Char)}
    {q : StoredProfile} {rest : List StoredProfile} (hq : ¬ (q.steamid64 = id)) :
    upsertProfile now id note (q :: rest) =
      (q :: (upsertProfile now id note rest).1, (upsertProfile now id note rest).2) := by
  rcases hu : upsertProfile now id note rest with ⟨rest', r⟩
  simp [upsertProfile, if_neg hq, hu]

theorem upsertGroup_cons_ne {g q : StoredGroup} {rest : List StoredGroup}
    (hq : ¬ (q.key = g.key)) :
    upsertGroup g (q :: rest) =
      (q :: (upsertGroup g rest).1, (upsertGroup g rest).2) := by
  rcases hu : upsertGroup g rest with ⟨rest', r⟩
  simp [upsertGroup, if_neg hq, hu]

theorem upsertProfile_not_found {now : Nat} {id : List Char} {note : Option (List Char)}
    {list : List StoredProfile} (h : findProfile id list = none) :
    upsertProfile now id note list =
      (list ++ [{ steamid64 := id, note := noteNorm note, addedAt := now }], .added) := by
  induction list with
  | nil => rfl
  | cons q rest ih =>
    simp only [findProfile] at h
    by_cases hq : q.steamid64 = id
    · rw [if_pos hq] at h; cases h
    · rw [if_neg hq] at h
      rw [upsertProfile_cons_ne hq, ih h]
      rfl

theorem upsertGroup_not_found {g : StoredGroup} {glist : List StoredGroup}
    (h : findGroup g.key glist = none) :
    upsertGroup g glist = (glist ++ [g], .added) := by
  induction glist with
  | nil => rfl
  | cons q rest ih =>
    simp only [findGroup] at h
    by_cases hq : q.key = g.key
    · rw [if_pos hq] at h; cases h
    · rw [if_neg hq] at h
      rw [upsertGroup_cons_ne hq, ih h]
      rfl

theorem upsertProfile_found_exists {now : Nat} {id : List Char}
    {note : Option (List Char)} {list : List StoredProfile} {p : StoredProfile}
    (h : findProfile id list = some p)
    (hn : noteNorm note = none ∨ p.note = noteNorm note) :
    upsertProfile now id note list = (list, .alreadyExists) := by
  induction list with
  | nil => cases h
  | cons q rest ih =>
    simp only [findProfile] at h
    by_cases hq : q.steamid64 = id
    · rw [if_pos hq] at h
      cases h
      rcases hnn : noteNorm note with _ | t
      · simp only [upsertProfile, if_pos hq, hnn]
      · rcases hn with hn | hn
        · rw [hnn] at hn; cases hn
        · rw [hnn] at hn
          simp only [upsertProfile, if_pos hq, hnn, if_pos hn]
    · rw [if_neg hq] at h
      rw [upsertProfile_cons_ne hq, ih h]

theorem upsertGroup_found_exists {g : StoredGroup} {glist : List StoredGroup}
    {p : StoredGroup} (h : findGroup g.key glist = some p)
    (hn : noteNorm g.note = none ∨ p.note = noteNorm g.note) :
    upsertGroup g glist = (glist, .alreadyExists) := by
  induction glist with
  | nil => cases h
  | cons q rest ih =>
    simp only [findGroup] at h
    by_cases hq : q.key = g.key
    · rw [if_pos hq] at h
      cases h
      rcases hnn : noteNorm g.note with _ | t
      · simp only [upsertGroup, if_pos hq, hnn]
      · rcases hn with hn | hn
        · rw [hnn] at hn; cases hn
        · rw [hnn] at hn
          simp only [upsertGroup, if_pos hq, hnn, if_pos hn]
    · rw [if_neg hq] at h
      rw [upsertGroup_cons_ne hq, ih h]

theorem upsertProfile_found_updated {now : Nat} {id : List Char}
    {note : Option (List Char)} {t : List Char} {list : List StoredProfile}
    {p : StoredProfile} (h : findProfile id list = some p)
    (ht : noteNorm note = some t) (hne : ¬ (p.note = some t)) :
    (upsertProfile now id note list).2 = .updated ∧
    ∃ i : Nat, list[i]? = some p ∧
      (upsertProfile now id note list).1[i]? = some { p with note := some t } ∧
      (upsertProfile now id note list).1.length = list.length ∧
      ∀ j : Nat, ¬ (j = i) → (upsertProfile now id note list).1[j]? = list[j]? := by
  induction list with
  | nil => cases h
  | cons q rest ih =>
    simp only [findProfile] at h
    by_cases hq : q.steamid64 = id
    · rw [if_pos hq] at h
      cases h
      have hres : upsertProfile now id note (p :: rest) =
          ({ p with note := some t } :: rest, .updated) := by
        simp only [upsertProfile, if_pos hq, ht, if_neg hne]
      rw [hres]
      refine ⟨rfl, 0, by simp, by simp, by simp, ?_⟩
      intro j hj
      rcases j with _ | k
      · exact absurd rfl hj
      · simp
    · rw [if_neg hq] at h
      rw [upsertProfile_cons_ne hq]
      obtain ⟨hr, i, hi1, hi2, hlen, hrest⟩ := ih h
      refine ⟨hr, i + 1, by simpa using hi1, by simpa using hi2, by simpa using hlen, ?_⟩
      intro j hj
      rcases j with _ | k
      · simp
      · have : ¬ (k = i) := fun hk => hj (by rw [hk])
        simpa using hrest k this

theorem upsertGroup_found_updated {g : StoredGroup} {t : List Char}
    {glist : List StoredGroup} {p : StoredGroup} (h : findGroup g.key glist = some p)
    (ht : noteNorm g.note = some t) (hne : ¬ (p.note = some t)) :
    (upsertGroup g glist).2 = .updated ∧
    ∃ i : Nat, glist[i]? = some p ∧
      (upsertGroup g glist).1[i]? = some { p with note := some t } ∧
      (upsertGroup g glist).1.length = glist.length ∧
      ∀ j : Nat, ¬ (j = i) → (upsertGroup g glist).1[j]? = glist[j]? := by
  induction glist with
  | nil => cases h
  | cons q rest ih =>
    simp only [findGroup] at h
    by_cases hq : q.key = g.key
    · rw [if_pos hq] at h
      cases h
      have hres : upsertGroup g (p :: rest) =
          ({ p with note := some t } :: rest, .updated) := by
        simp only [upsertGroup, if_pos hq, ht, if_neg hne]
      rw [hres]
      refine ⟨rfl, 0, by simp, by simp, by simp, ?_⟩
      intro j hj
      rcases j with _ | k
      · exact absurd rfl hj
      · simp
    · rw [if_neg hq] at h
      rw [upsertGroup_cons_ne hq]
      obtain ⟨hr, i, hi1, hi2, hlen, hrest⟩ := ih h
      refine ⟨hr, i + 1, by simpa using hi1, by simpa using hi2, by simpa using hlen, ?_⟩
      intro j hj
      rcases j with _ | k
      · simp
      · have : ¬ (k = i) := fun hk => hj (by rw [hk])
        simpa using hrest k this

theorem findProfile_upsert (now : Nat) (id : List Char) (note : Option (List Char))
    (list : List StoredProfile) :
    ∃ p, findProfile id (upsertProfile now id note list).1 = some p := by
  induction list with
  | nil =>
    refine ⟨{ steamid64 := id, note := noteNorm note, addedAt := now }, ?_⟩
    simp [upsertProfile, findProfile]
  | cons q rest ih =>
    by_cases hq : q.steamid64 = id
    · rcases hnn : noteNorm note with _ | t
      · exact ⟨q, by simp [upsertProfile, if_pos hq, hnn, findProfile, hq]⟩
      · by_cases hqn : q.note = some t
        · exact ⟨q, by simp [upsertProfile, if_pos hq, hnn, if_pos hqn, findProfile, hq]⟩
        · refine ⟨{ q with note := some t }, ?_⟩
          simp only [upsertProfile, if_pos hq, hnn, if_neg hqn]
          simp [findProfile, hq]
    · rw [upsertProfile_cons_ne hq]
      obtain ⟨p, hp⟩ := ih
      exact ⟨p, by simp [findProfile, if_neg hq, hp]⟩

/-! ## C2: upsert semantics (profiles and groups) -/

/-- C2: for every identity key and optional note — if no record exists, a
record is appended with `addedAt = now` and the trimmed note (or absent) and
`added` is returned; if a record exists and the trimmed note is empty or
identical, nothing is mutated and `exists` is returned; if it differs and is
non-empty, only that record's note is replaced (all other positions and the
record's `steamid64`/`addedAt` are untouched) and `updated` is returned.
The same holds for the group store keyed by `key`. -/
theorem upsert_semantics (now : Nat) (id : List Char) (note : Option (List Char))
    (list : List StoredProfile) (g : StoredGroup) (glist : List StoredGroup) :
    (findProfile id list = none →
      upsertProfile now id note list =
        (list ++ [{ steamid64 := id, note := noteNorm note, addedAt := now }], .added)) ∧
    (∀ p, findProfile id list = some p →
      (noteNorm note = none ∨ p.note = noteNorm note) →
      upsertProfile now id note list = (list, .alreadyExists)) ∧
    (∀ p t, findProfile id list = some p → noteNorm note = some t →
      ¬ (p.note = some t) →
      (upsertProfile now id note list).2 = .updated ∧
      ∃ i : Nat, list[i]? = some p ∧
        (upsertProfile now id note list).1[i]? = some { p with note := some t } ∧
        (upsertProfile now id note list).1.length = list.length ∧
        ∀ j : Nat, ¬ (j = i) → (upsertProfile now id note list).1[j]? = list[j]?) ∧
    (findGroup g.key glist = none → upsertGroup g glist = (glist ++ [g], .added)) ∧
    (∀ p, findGroup g.key glist = some p →
      (noteNorm g.note = none ∨ p.note = noteNorm g.note) →
      upsertGroup g glist = (glist, .alreadyExists)) ∧
    (∀ p t, findGroup g.key glist = some p → noteNorm g.note = some t →
      ¬ (p.note = some t) →
      (upsertGroup g glist).2 = .updated ∧
      ∃ i : Nat, glist[i]? = some p ∧
        (upsertGroup g glist).1[i]? = some { p with note := some t } ∧
        (upsertGroup g glist).1.length = glist.length ∧
        ∀ j : Nat, ¬ (j = i) → (upsertGroup g glist).1[j]? = glist[j]?) :=
  ⟨fun h => upsertProfile_not_found h,
   fun _ h hn => upsertProfile_found_exists h hn,
   fun _ _ h ht hne => upsertProfile_found_updated h ht hne,
   fun h => upsertGroup_not_found h,
   fun _ h hn => upsertGroup_found_exists h hn,
   fun _ _ h ht hne => upsertGroup_found_updated h ht hne⟩

/-- C2 witness: the note-update scenario at concrete values — add with note
"A", re-add with "A" gives `exists` unchanged, add with "B" gives `updated`
with `addedAt` preserved. -/
theorem upsert_semantics_witness :
    upsertProfile 3 "765611980000000001".data (some "A".data) [] =
      ([{ steamid64 := "765611980000000001".data, note := some "A".data,
          addedAt := 3 }], .added) ∧
    upsertProfile 9 "765611980000000001".data (some "A".data)
        [{ steamid64 := "765611980000000001".data, note := some "A".data,
           addedAt := 3 }] =
      ([{ steamid64 := "765611980000000001".data, note := some "A".data,
          addedAt := 3 }], .alreadyExists) ∧
    (upsertProfile 9 "765611980000000001".data (some "B".data)
        [{ steamid64 := "765611980000000001".data, note := some "A".data,
           addedAt := 3 }]).2 = .updated ∧
    (upsertProfile 9 "765611980000000001".data (some "B".data)
        [{ steamid64 := "765611980000000001".data, note := some "A".data,
           addedAt := 3 }]).1[0]? =
      some { steamid64 := "765611980000000001".data, note := some "B".data,
             addedAt := 3 } := by
  refine ⟨?_, ?_, ?_, ?_⟩
  · exact (upsert_semantics 3 "765611980000000001".data (some "A".data) []
      { key := [], url := [], addedAt := 0 } []).1 (by decide)
  · exact (upsert_semantics 9 "765611980000000001".data (some "A".data)
      [{ steamid64 := "765611980000000001".data, note := some "A".data, addedAt := 3 }]
      { key := [], url := [], addedAt := 0 } []).2.1
      { steamid64 := "765611980000000001".data, note := some "A".data, addedAt := 3 }
      (by decide) (Or.inr (by decide))
  · exact ((upsert_semantics 9 "765611980000000001".data (some "B".data)
      [{ steamid64 := "765611980000000001".data, note := some "A".data, addedAt := 3 }]
      { key := [], url := [], addedAt := 0 } []).2.2.1
      { steamid64 := "765611980000000001".data, note := some "A".data, addedAt := 3 }
      "B".data (by decide) (by decide) (by decide)).1
  · obtain ⟨hr, i, hi1, hi2, hlen, hrest⟩ := (upsert_semantics 9
      "765611980000000001".data (some "B".data)
      [{ steamid64 := "765611980000000001".data, note := some "A".data, addedAt := 3 }]
      { key := [], url := [], addedAt := 0 } []).2.2.1
      { steamid64 := "765611980000000001".data, note := some "A".data, addedAt := 3 }
      "B".data (by decide) (by decide) (by decide)
    have hi0 : i = 0 := by
      rcases i with _ | k
      · rfl
      · simp at hi1
    rw [hi0] at hi2
    simpa using hi2

/-! ## C3: upsert idempotence -/

/-- C3: upserting the same identity twice with no note yields `exists` the
second time, the store is returned unchanged (so the record is never
duplicated), and the record count after the second call equals the count
after the first. -/
theorem upsert_idempotent (now now2 : Nat) (id : List Char)
    (list : List StoredProfile) :
    upsertProfile now2 id none (upsertProfile now id none list).1 =
      ((upsertProfile now id none list).1, .alreadyExists) ∧
    (upsertProfile now2 id none (upsertProfile now id none list).1).1.length =
      (upsertProfile now id none list).1.length := by
  obtain ⟨p, hp⟩ := findProfile_upsert now id none list
  have h := @upsertProfile_found_exists now2 id none
    ((upsertProfile now id none list).1) p hp (Or.inl rfl)
  exact ⟨h, by rw [h]⟩

/-! ## C4: bulk import -/

theorem importProfilesLoop_sum (resolver : List Char → Option (List Char)) (now : Nat)
    (note : Option (List Char)) (items : List (List Char))
    (store : List StoredProfile) :
    (importProfilesLoop resolver now note items store).1 +
      (importProfilesLoop resolver now note items store).2.1 +
      (importProfilesLoop resolver now note items store).2.2.1 +
      (importProfilesLoop resolver now note items store).2.2.2.1 = items.length := by
  induction items generalizing store with
  | nil => rfl
  | cons item rest ih =>
    rcases hr : resolveToSteamId64 resolver item with _ | id64
    · rcases hl : importProfilesLoop resolver now note rest store with ⟨a, u, e, f, s⟩
      have := ih store
      rw [hl] at this
      simp only [importProfilesLoop, hr, hl]
      simp only [List.length_cons] at this ⊢
      omega
    · rcases hu : upsertProfile now id64 note store with ⟨store', r⟩
      rcases hl : importProfilesLoop resolver now note rest store' with ⟨a, u, e, f, s⟩
      have := ih store'
      rw [hl] at this
      simp only at this
      simp only [importProfilesLoop, hr, hu, hl]
      rcases r with _ | _ | _ <;> simp only [List.length_cons] <;> omega

theorem importGroupsLoop_sum (now : Nat) (note : Option (List Char))
    (items : List (List Char)) (store : List StoredGroup) :
    (importGroupsLoop now note items store).1 +
      (importGroupsLoop now note items store).2.1 +
      (importGroupsLoop now note items store).2.2.1 +
      (importGroupsLoop now note items store).2.2.2.1 = items.length := by
  induction items generalizing store with
  | nil => rfl
  | cons item rest ih =>
    rcases hr : makeGroupFromInput now item note with _ | g
    · rcases hl : importGroupsLoop now note rest store with ⟨a, u, e, f, s⟩
      have := ih store
      rw [hl] at this
      simp only [importGroupsLoop, hr, hl]
      simp only [List.length_cons] at this ⊢
      omega
    · rcases hu : upsertGroup g store with ⟨store', r⟩
      rcases hl : importGroupsLoop now note rest store' with ⟨a, u, e, f, s⟩
      have := ih store'
      rw [hl] at this
      simp only at this
      simp only [importGroupsLoop, hr, hu, hl]
      rcases r with _ | _ | _ <;> simp only [List.length_cons] <;> omega

/-- C4: bulk import processes exactly the first `MAX_IMPORT_ITEMS` (300)
candidates — `processed = min(found, 300)`, `found` is the raw candidate
count and `truncated` flags the excess — continues through individual
resolution failures, and the counters always satisfy
`added + updated + exists + failed = processed` (for the profile and the
group importer alike); in particular 3 valid numeric IDs interleaved with 2
unresolvable garbage lines give `added = 3, failed = 2, processed = 5`. -/
theorem import_counts (resolver : List Char → Option (List Char)) (now : Nat)
    (candidates : List (List Char)) (note : Option (List Char))
    (store : List StoredProfile) (gstore : List StoredGroup) :
    ((importManyProfiles resolver now candidates note store).1.found =
        candidates.length ∧
     (importManyProfiles resolver now candidates note store).1.processed =
        min candidates.length MAX_IMPORT_ITEMS ∧
     (importManyProfiles resolver now candidates note store).1.truncated =
        decide (MAX_IMPORT_ITEMS < candidates.length) ∧
     (importManyProfiles resolver now candidates note store).1.added +
       (importManyProfiles resolver now candidates note store).1.updated +
       (importManyProfiles resolver now candidates note store).1.existsCount +
       (importManyProfiles resolver now candidates note store).1.failed =
       (importManyProfiles resolver now candidates note store).1.processed) ∧
    ((importManyGroups now candidates note gstore).1.found = candidates.length ∧
     (importManyGroups now candidates note gstore).1.processed =
        min candidates.length MAX_IMPORT_ITEMS ∧
     (importManyGroups now candidates note gstore).1.truncated =
        decide (MAX_IMPORT_ITEMS < candidates.length) ∧
     (importManyGroups now candidates note gstore).1.added +
       (importManyGroups now candidates note gstore).1.updated +
       (importManyGroups now candidates note gstore).1.existsCount +
       (importManyGroups now candidates note gstore).1.failed =
       (importManyGroups now candidates note gstore).1.processed) ∧
    (importManyProfiles (fun _ => none) 7
        ["garbage one".data, "765611980000000001".data, "not a steam thing".data,
         "765611980000000002".data, "765611980000000003".data] none []).1 =
      { added := 3, updated := 0, existsCount := 0, failed := 2, processed := 5,
        found := 5, truncated := false } := by
  refine ⟨⟨?_, ?_, ?_, ?_⟩, ⟨?_, ?_, ?_, ?_⟩, by decide⟩
  · rcases hl : importProfilesLoop resolver now note
      (candidates.take MAX_IMPORT_ITEMS) store with ⟨a, u, e, f, s⟩
    simp [importManyProfiles, hl]
  · rcases hl : importProfilesLoop resolver now note
      (candidates.take MAX_IMPORT_ITEMS) store with ⟨a, u, e, f, s⟩
    simp [importManyProfiles, hl, List.length_take, Nat.min_comm]
  · rcases hl : importProfilesLoop resolver now note
      (candidates.take MAX_IMPORT_ITEMS) store with ⟨a, u, e, f, s⟩
    simp [importManyProfiles, hl]
  · have hs := importProfilesLoop_sum resolver now note
      (candidates.take MAX_IMPORT_ITEMS) store
    rcases hl : importProfilesLoop resolver now note
      (candidates.take MAX_IMPORT_ITEMS) store with ⟨a, u, e, f, s⟩
    rw [hl] at hs
    simp only at hs
    simp [importManyProfiles, hl, hs]
  · rcases hl : importGroupsLoop now note
      (candidates.take MAX_IMPORT_ITEMS) gstore with ⟨a, u, e, f, s⟩
    simp [importManyGroups, hl]
  · rcases hl : importGroupsLoop now note
      (candidates.take MAX_IMPORT_ITEMS) gstore with ⟨a, u, e, f, s⟩
    simp [importManyGroups, hl, List.length_take, Nat.min_comm]
  · rcases hl : importGroupsLoop now note
      (candidates.take MAX_IMPORT_ITEMS) gstore with ⟨a, u, e, f, s⟩
    simp [importManyGroups, hl]
  · have hs := importGroupsLoop_sum now note
      (candidates.take MAX_IMPORT_ITEMS) gstore
    rcases hl : importGroupsLoop now note
      (candidates.take MAX_IMPORT_ITEMS) gstore with ⟨a, u, e, f, s⟩
    rw [hl] at hs
    simp only at hs
    simp [importManyGroups, hl, hs]

/-! ## C7: pagination -/

/-- C7: for a non-empty collection of `N` records, the list pagination
clamps the requested page into `[1, ceil(N/10)]` (so 0, negative and
too-large pages land in range, and any request `≤ 0` gives page 1), the
returned slice is the records at positions `(page-1)*10` up to
`min(page*10, N)` in stored order, and the final page holds the last
`N mod 10` records (10 when `N` is evenly divisible). -/
theorem listPageSlice_spec {α : Type} (records : List α) (requested : Int)
    (h : ¬ (records = [])) :
    (1 ≤ (listPageSlice records requested).1 ∧
     (listPageSlice records requested).1 =
       ((listPageSlice records requested).2.1 ⊓ ((requested.toNat) ⊔ 1)) ∧
     (listPageSlice records requested).2.1 =
       (records.length + LIST_PAGE_SIZE - 1) / LIST_PAGE_SIZE) ∧
    ((listPageSlice records requested).2.2.length =
       min LIST_PAGE_SIZE
         (records.length - ((listPageSlice records requested).1 - 1) * LIST_PAGE_SIZE) ∧
     ∀ i : Nat, (listPageSlice records requested).2.2[i]? =
       if i < LIST_PAGE_SIZE then
         records[((listPageSlice records requested).1 - 1) * LIST_PAGE_SIZE + i]?
       else none) ∧
    (requested ≤ 0 → (listPageSlice records requested).1 = 1) ∧
    (requested = ((records.length + LIST_PAGE_SIZE - 1) / LIST_PAGE_SIZE : Nat) →
      (listPageSlice records requested).2.2.length =
        if records.length % LIST_PAGE_SIZE = 0 then LIST_PAGE_SIZE
        else records.length % LIST_PAGE_SIZE) := by
  have hN : 1 ≤ records.length := List.length_pos.mpr h
  have htp : max 1 ((records.length + LIST_PAGE_SIZE - 1) / LIST_PAGE_SIZE) =
      (records.length + LIST_PAGE_SIZE - 1) / LIST_PAGE_SIZE := by
    simp only [LIST_PAGE_SIZE]
    omega
  have htp1 : (1 : Int) ≤
      (((records.length + LIST_PAGE_SIZE - 1) / LIST_PAGE_SIZE : Nat) : Int) := by
    have : 1 ≤ (records.length + LIST_PAGE_SIZE - 1) / LIST_PAGE_SIZE := by
      simp only [LIST_PAGE_SIZE]; omega
    exact_mod_cast this
  have hq1 : (1 : Int) ≤ min (max requested 1)
      (((records.length + LIST_PAGE_SIZE - 1) / LIST_PAGE_SIZE : Nat) : Int) := by
    refine le_min (le_max_right _ _) ?_
    have : 1 ≤ (records.length + LIST_PAGE_SIZE - 1) / LIST_PAGE_SIZE := by
      simp only [LIST_PAGE_SIZE]; omega
    exact_mod_cast this
  have hq2 : min (max requested 1)
      (((records.length + LIST_PAGE_SIZE - 1) / LIST_PAGE_SIZE : Nat) : Int) ≤
      (((records.length + LIST_PAGE_SIZE - 1) / LIST_PAGE_SIZE : Nat) : Int) :=
    min_le_right _ _
  have hunfold : listPageSlice records requested =
      (((min (max requested 1)
          (((records.length + LIST_PAGE_SIZE - 1) / LIST_PAGE_SIZE : Nat) : Int)).toNat),
       ((records.length + LIST_PAGE_SIZE - 1) / LIST_PAGE_SIZE),
       ((records.drop (((min (max requested 1)
          (((records.length + LIST_PAGE_SIZE - 1) / LIST_PAGE_SIZE : Nat) : Int)).toNat - 1)
            * LIST_PAGE_SIZE)).take LIST_PAGE_SIZE)) := by
    unfold listPageSlice
    rw [htp]
  rw [hunfold]
  set q : Int := min (max requested 1)
      (((records.length + LIST_PAGE_SIZE - 1) / LIST_PAGE_SIZE : Nat) : Int) with hqdef
  refine ⟨⟨?_, ?_, rfl⟩, ⟨?_, ?_⟩, ?_, ?_⟩
  · simp only
    omega
  · simp only
    rw [hqdef]
    rcases le_total requested 1 with hr | hr
    · rw [max_eq_right hr, min_eq_left htp1]
      have : requested.toNat ≤ 1 := by omega
      omega
    · rw [max_eq_left hr]
      rcases le_total requested
          (((records.length + LIST_PAGE_SIZE - 1) / LIST_PAGE_SIZE : Nat) : Int) with
        hc | hc
      · rw [min_eq_left hc]
        omega
      · rw [min_eq_right hc]
        omega
  · simp only
    rw [List.length_take, List.length_drop]
  · intro i
    simp only
    rw [List.getElem?_take, List.getElem?_drop]
  · intro hr
    simp only
    have : max requested 1 = 1 := max_eq_right (by omega)
    rw [hqdef, this, min_eq_left htp1]
    rfl
  · intro hr
    simp only
    have hmax : max requested 1 = requested :=
      max_eq_left (by rw [hr]; exact_mod_cast (by simp only [LIST_PAGE_SIZE]; omega :
        1 ≤ (records.length + LIST_PAGE_SIZE - 1) / LIST_PAGE_SIZE))
    have hq : q = (((records.length + LIST_PAGE_SIZE - 1) / LIST_PAGE_SIZE : Nat) : Int) := by
      rw [hqdef, hmax, hr, min_self]
    rw [List.length_take, List.length_drop, hq]
    simp only [Int.toNat_natCast, LIST_PAGE_SIZE]
    split_ifs with hm <;> omega

/-- C7 witness: the theorem applied to a concrete 13-record collection at
the final page. -/
theorem listPageSlice_spec_witness :
    1 ≤ (listPageSlice [0, 1, 2, 3, 4, 5, 6, 7, 8, 9, 10, 11, 12] (2 : Int)).1 ∧
    (listPageSlice [0, 1, 2, 3, 4, 5, 6, 7, 8, 9, 10, 11, 12] (2 : Int)).2.2.length =
      (if ([0, 1, 2, 3, 4, 5, 6, 7, 8, 9, 10, 11, 12] : List Nat).length %
          LIST_PAGE_SIZE = 0 then LIST_PAGE_SIZE
       else ([0, 1, 2, 3, 4, 5, 6, 7, 8, 9, 10, 11, 12] : List Nat).length %
          LIST_PAGE_SIZE) :=
  ⟨(listPageSlice_spec [0, 1, 2, 3, 4, 5, 6, 7, 8, 9, 10, 11, 12] (2 : Int)
      (by decide)).1.1,
   (listPageSlice_spec [0, 1, 2, 3, 4, 5, 6, 7, 8, 9, 10, 11, 12] (2 : Int)
      (by decide)).2.2.2 (by decide)⟩

/-! ## C8: group inputs are handled locally with canonical keys -/

/-- C8: `makeGroupFromInput` is a pure function of its input and the current
time (no resolver parameter exists on the group path), and every non-`none`
result has exactly one of the two canonical shapes: a numeric group ID kept
as-is — key `gid:<digits>` with 15 to 25 digits, the URL carrying the same
digits — or a name — key `groups:<name lower-cased>` while the stored URL
preserves the name's original casing. -/
theorem makeGroupFromInput_canonical (now : Nat) (input : List Char)
    (note : Option (List Char)) (g : StoredGroup)
    (h : makeGroupFromInput now input note = some g) :
    (∃ d, (∀ c ∈ d, isDigitChar c = true) ∧ 15 ≤ d.length ∧ d.length ≤ 25 ∧
      g.key = "gid:".data ++ d ∧
      g.url = "https://steamcommunity.com/gid/".data ++ d ∧
      g.gid64 = some d ∧ g.name = none ∧ g.addedAt = now) ∨
    (∃ nm, ¬ (nm = []) ∧ (∀ c ∈ nm, idChar c = true) ∧
      g.key = "groups:".data ++ nm.map lowerChar ∧
      g.url = "https://steamcommunity.com/groups/".data ++ nm ∧
      g.name = some nm ∧ g.gid64 = none ∧ g.addedAt = now) := by
  unfold makeGroupFromInput at h
  dsimp only at h
  rcases h1 : extractFirstGroup STEAM_GID_REGEX (normalizeInput input) with _ | gid
  · rw [h1] at h
    dsimp only at h
    rcases h2 : extractFirstGroup STEAM_GROUPS_REGEX (normalizeInput input) with _ | nm
    · rw [h2] at h
      dsimp only at h
      rcases h3 : (if containsSub "steamcommunity.com/groups/".data
          (normalizeInput input) = true then
          extractFirstGroup FALLBACK_GROUPS_REGEX (normalizeInput input)
        else none) with _ | nm2
      · rw [h3] at h
        dsimp only at h
        rcases h4 : (if containsSub "steamcommunity.com/gid/".data
            (normalizeInput input) = true then
            extractFirstGroup FALLBACK_GID_REGEX (normalizeInput input)
          else none) with _ | gid2
        · rw [h4] at h
          cases h
        · rw [h4] at h
          dsimp only at h
          cases h
          have hcap : extractFirstGroup FALLBACK_GID_REGEX (normalizeInput input) =
              some gid2 := by
            by_cases hc : containsSub "steamcommunity.com/gid/".data
                (normalizeInput input) = true
            · rwa [if_pos hc] at h4
            · rw [if_neg hc] at h4; cases h4
          obtain ⟨hcls, hmin, hmax⟩ := extractFirstGroup_capture hcap
          exact Or.inl ⟨gid2, hcls, hmin, hmax 25 rfl, rfl, rfl, rfl, rfl, rfl⟩
      · rw [h3] at h
        dsimp only at h
        cases h
        have hcap : extractFirstGroup FALLBACK_GROUPS_REGEX (normalizeInput input) =
            some nm2 := by
          by_cases hc : containsSub "steamcommunity.com/groups/".data
              (normalizeInput input) = true
          · rwa [if_pos hc] at h3
          · rw [if_neg hc] at h3; cases h3
        obtain ⟨hcls, hmin, _⟩ := extractFirstGroup_capture hcap
        refine Or.inr ⟨nm2, ?_, hcls, rfl, rfl, rfl, rfl, rfl⟩
        intro hnil
        rw [hnil] at hmin
        exact absurd hmin (by decide)
    · rw [h2] at h
      dsimp only at h
      cases h
      obtain ⟨hcls, hmin, _⟩ := extractFirstGroup_capture h2
      refine Or.inr ⟨nm, ?_, hcls, rfl, rfl, rfl, rfl, rfl⟩
      intro hnil
      rw [hnil] at hmin
      exact absurd hmin (by decide)
  · rw [h1] at h
    dsimp only at h
    cases h
    obtain ⟨hcls, hmin, hmax⟩ := extractFirstGroup_capture h1
    exact Or.inl ⟨gid, hcls, hmin, hmax 25 rfl, rfl, rfl, rfl, rfl, rfl⟩

/-- C8 witness: the theorem applied to a concrete mixed-case group URL. -/
theorem makeGroupFromInput_canonical_witness :
    makeGroupFromInput 5 "https://steamcommunity.com/groups/MyGroup".data none =
      some { key := "groups:mygroup".data,
             url := "https://steamcommunity.com/groups/MyGroup".data,
             name := some "MyGroup".data, addedAt := 5 } ∧
    ((∃ d, (∀ c ∈ d, isDigitChar c = true) ∧ 15 ≤ d.length ∧ d.length ≤ 25 ∧
      ({ key := "groups:mygroup".data,
         url := "https://steamcommunity.com/groups/MyGroup".data,
         name := some "MyGroup".data, addedAt := 5 } : StoredGroup).key =
           "gid:".data ++ d ∧
      ({ key := "groups:mygroup".data,
         url := "https://steamcommunity.com/groups/MyGroup".data,
         name := some "MyGroup".data, addedAt := 5 } : StoredGroup).url =
           "https://steamcommunity.com/gid/".data ++ d ∧
      ({ key := "groups:mygroup".data,
         url := "https://steamcommunity.com/groups/MyGroup".data,
         name := some "MyGroup".data, addedAt := 5 } : StoredGroup).gid64 = some d ∧
      ({ key := "groups:mygroup".data,
         url := "https://steamcommunity.com/groups/MyGroup".data,
         name := some "MyGroup".data, addedAt := 5 } : StoredGroup).name = none ∧
      ({ key := "groups:mygroup".data,
         url := "https://steamcommunity.com/groups/MyGroup".data,
         name := some "MyGroup".data, addedAt := 5 } : StoredGroup).addedAt = 5) ∨
    (∃ nm, ¬ (nm = []) ∧ (∀ c ∈ nm, idChar c = true) ∧
      ({ key := "groups:mygroup".data,
         url := "https://steamcommunity.com/groups/MyGroup".data,
         name := some "MyGroup".data, addedAt := 5 } : StoredGroup).key =
           "groups:".data ++ nm.map lowerChar ∧
      ({ key := "groups:mygroup".data,
         url := "https://steamcommunity.com/groups/MyGroup".data,
         name := some "MyGroup".data, addedAt := 5 } : StoredGroup).url =
           "https://steamcommunity.com/groups/".data ++ nm ∧
      ({ key := "groups:mygroup".data,
         url := "https://steamcommunity.com/groups/MyGroup".data,
         name := some "MyGroup".data, addedAt := 5 } : StoredGroup).name = some nm ∧
      ({ key := "groups:mygroup".data,
         url := "https://steamcommunity.com/groups/MyGroup".data,
         name := some "MyGroup".data, addedAt := 5 } : StoredGroup).gid64 = none ∧
      ({ key := "groups:mygroup".data,
         url := "https://steamcommunity.com/groups/MyGroup".data,
         name := some "MyGroup".data, addedAt := 5 } : StoredGroup).addedAt = 5)) :=
  ⟨by decide,
   makeGroupFromInput_canonical 5 "https://steamcommunity.com/groups/MyGroup".data
     none _ (by decide)⟩

/-! ## C9: quoted regions are removed before matching -/

theorem fence_not_prefix_of_ne {c : Char} (hc : ¬ (c = btick)) (t : List Char) :
    fenceLit.isPrefixOf (c :: t) = false := by
  have hbc : (btick == c) = false := by
    simp only [beq_eq_false_iff_ne, ne_eq]
    exact fun he => hc he.symm
  simp [fenceLit, List.isPrefixOf, hbc]

theorem stripFencesAux_no_btick {cs : List Char} (h : ∀ c ∈ cs, ¬ (c = btick)) :
    ∀ fuel, cs.length ≤ fuel → stripFencesAux fuel cs = cs := by
  induction cs with
  | nil => intro fuel _; rcases fuel with _ | f <;> rfl
  | cons c t ih =>
    intro fuel hlen
    rcases fuel with _ | f
    · simp at hlen
    · simp only [stripFencesAux, fence_not_prefix_of_ne (h c (by simp)) t]
      rw [if_neg (by simp)]
      rw [ih (fun x hx => h x (List.mem_cons_of_mem c hx)) f (by
        simp only [List.length_cons] at hlen; omega)]

theorem stripInlineAux_no_btick {cs : List Char} (h : ∀ c ∈ cs, ¬ (c = btick)) :
    ∀ fuel, cs.length ≤ fuel → stripInlineAux fuel cs = cs := by
  induction cs with
  | nil => intro fuel _; rcases fuel with _ | f <;> rfl
  | cons c t ih =>
    intro fuel hlen
    rcases fuel with _ | f
    · simp at hlen
    · simp only [stripInlineAux]
      rw [if_neg (h c (by simp))]
      rw [ih (fun x hx => h x (List.mem_cons_of_mem c hx)) f (by
        simp only [List.length_cons] at hlen; omega)]

theorem findFenceClose_skip {b : List Char} (hb : ∀ x ∈ b, ¬ (x = btick))
    (rest : List Char) : findFenceClose (b ++ (fenceLit ++ rest)) = some rest := by
  induction b with
  | nil =>
    simp only [List.nil_append, fenceLit, List.cons_append, List.nil_append]
    simp [findFenceClose, List.isPrefixOf, fenceLit]
  | cons x b' ih =>
    simp only [List.cons_append, findFenceClose,
      fence_not_prefix_of_ne (hb x (by simp)) _]
    rw [if_neg (by simp)]
    exact ih (fun y hy => hb y (List.mem_cons_of_mem x hy))

theorem afterNextBtick_skip {b : List Char} (hb : ∀ x ∈ b, ¬ (x = btick))
    (rest : List Char) : afterNextBtick (b ++ (btick :: rest)) = some rest := by
  induction b with
  | nil => simp [afterNextBtick]
  | cons x b' ih =>
    simp only [List.cons_append, afterNextBtick]
    rw [if_neg (hb x (by simp))]
    exact ih (fun y hy => hb y (List.mem_cons_of_mem x hy))

theorem stripFencesAux_cut (a : List Char) :
    ∀ (fuel : Nat) {b c : List Char}, (∀ x ∈ a, ¬ (x = btick)) →
    (∀ x ∈ b, ¬ (x = btick)) → (∀ x ∈ c, ¬ (x = btick)) →
    a.length + c.length < fuel →
    stripFencesAux fuel (a ++ (fenceLit ++ (b ++ (fenceLit ++ c)))) = a ++ c := by
  induction a with
  | nil =>
    intro fuel b c _ hb hc hlen
    rcases fuel with _ | f
    · omega
    · simp only [List.nil_append, fenceLit, List.cons_append, List.nil_append]
      simp only [stripFencesAux]
      rw [if_pos (by simp [fenceLit, List.isPrefixOf])]
      simp only [List.drop_succ_cons, List.drop_zero]
      have hclose := findFenceClose_skip hb c
      simp only [fenceLit, List.cons_append, List.nil_append] at hclose
      rw [hclose]
      exact stripFencesAux_no_btick hc f (by
        simp only [List.length_nil] at hlen; omega)
  | cons x a' ih =>
    intro fuel b c ha hb hc hlen
    rcases fuel with _ | f
    · omega
    · simp only [List.cons_append, stripFencesAux,
        fence_not_prefix_of_ne (ha x (by simp)) _]
      rw [if_neg (by simp)]
      exact congrArg (List.cons x)
        (ih f (fun y hy => ha y (List.mem_cons_of_mem x hy)) hb hc (by
          simp only [List.length_cons] at hlen; omega))

theorem stripInlineAux_cut (a : List Char) :
    ∀ (fuel : Nat) {b c : List Char}, (∀ x ∈ a, ¬ (x = btick)) →
    (∀ x ∈ b, ¬ (x = btick)) → (∀ x ∈ c, ¬ (x = btick)) →
    a.length + c.length < fuel →
    stripInlineAux fuel (a ++ (btick :: (b ++ (btick :: c)))) = a ++ c := by
  induction a with
  | nil =>
    intro fuel b c _ hb hc hlen
    rcases fuel with _ | f
    · omega
    · simp only [List.nil_append, stripInlineAux, if_true]
      rw [afterNextBtick_skip hb c]
      exact stripInlineAux_no_btick hc f (by
        simp only [List.length_nil] at hlen; omega)
  | cons x a' ih =>
    intro fuel b c ha hb hc hlen
    rcases fuel with _ | f
    · omega
    · simp only [List.cons_append, stripInlineAux]
      rw [if_neg (ha x (by simp))]
      exact congrArg (List.cons x)
        (ih f (fun y hy => ha y (List.mem_cons_of_mem x hy)) hb hc (by
          simp only [List.length_cons] at hlen; omega))

theorem fence_not_prefix_single {b c : List Char} (hb : ∀ x ∈ b, ¬ (x = btick))
    (hc : ∀ x ∈ c, ¬ (x = btick)) :
    fenceLit.isPrefixOf (btick :: (b ++ (btick :: c))) = false := by
  rcases b with _ | ⟨y, b'⟩
  · rcases c with _ | ⟨z, c'⟩
    · simp [fenceLit, List.isPrefixOf]
    · have hz : (btick == z) = false := by
        simp only [beq_eq_false_iff_ne, ne_eq]
        exact fun he => hc z (by simp) he.symm
      simp [fenceLit, List.isPrefixOf, hz]
  · have hy : (btick == y) = false := by
      simp only [beq_eq_false_iff_ne, ne_eq]
      exact fun he => hb y (by simp) he.symm
    simp [fenceLit, List.isPrefixOf, hy]

theorem fence_not_prefix_tail {c : List Char} (hc : ∀ x ∈ c, ¬ (x = btick)) :
    fenceLit.isPrefixOf (btick :: c) = false := by
  rcases c with _ | ⟨z, c'⟩
  · simp [fenceLit, List.isPrefixOf]
  · have hz : (btick == z) = false := by
      simp only [beq_eq_false_iff_ne, ne_eq]
      exact fun he => hc z (by simp) he.symm
    simp [fenceLit, List.isPrefixOf, hz]

theorem stripFencesAux_keep_tail {b c : List Char} (hb : ∀ x ∈ b, ¬ (x = btick))
    (hc : ∀ x ∈ c, ¬ (x = btick)) :
    ∀ fuel, (b ++ (btick :: c)).length ≤ fuel →
    stripFencesAux fuel (b ++ (btick :: c)) = b ++ (btick :: c) := by
  induction b with
  | nil =>
    intro fuel hlen
    rcases fuel with _ | f
    · simp at hlen
    · simp only [List.nil_append, stripFencesAux, fence_not_prefix_tail hc]
      rw [if_neg (by simp)]
      rw [stripFencesAux_no_btick hc f (by
        simp only [List.nil_append, List.length_cons] at hlen; omega)]
  | cons x b' ih =>
    intro fuel hlen
    rcases fuel with _ | f
    · simp at hlen
    · simp only [List.cons_append, stripFencesAux,
        fence_not_prefix_of_ne (hb x (by simp)) _]
      rw [if_neg (by simp)]
      exact congrArg (List.cons x)
        (ih (fun y hy => hb y (List.mem_cons_of_mem x hy)) f (by
          simp only [List.cons_append, List.length_cons] at hlen; omega))

theorem stripFencesAux_single (a : List Char) :
    ∀ (fuel : Nat) {b c : List Char}, (∀ x ∈ a, ¬ (x = btick)) →
    (∀ x ∈ b, ¬ (x = btick)) → (∀ x ∈ c, ¬ (x = btick)) →
    (a ++ (btick :: (b ++ (btick :: c)))).length ≤ fuel →
    stripFencesAux fuel (a ++ (btick :: (b ++ (btick :: c)))) =
      a ++ (btick :: (b ++ (btick :: c))) := by
  induction a with
  | nil =>
    intro fuel b c _ hb hc hlen
    rcases fuel with _ | f
    · simp at hlen
    · simp only [List.nil_append, stripFencesAux, fence_not_prefix_single hb hc]
      rw [if_neg (by simp)]
      rw [stripFencesAux_keep_tail hb hc f (by
        simp only [List.nil_append, List.length_cons] at hlen; omega)]
  | cons x a' ih =>
    intro fuel b c ha hb hc hlen
    rcases fuel with _ | f
    · simp at hlen
    · simp only [List.cons_append, stripFencesAux,
        fence_not_prefix_of_ne (ha x (by simp)) _]
      rw [if_neg (by simp)]
      exact congrArg (List.cons x)
        (ih f (fun y hy => ha y (List.mem_cons_of_mem x hy)) hb hc (by
          simp only [List.cons_append, List.length_cons] at hlen; omega))

/-- C9: both quoted-region passes remove the wrapped content before any
matching — a triple-backtick fence or an inline backtick span (with
backtick-free surroundings and content) is excised whole, so candidate
extraction on the text equals candidate extraction on the text with the
quoted region deleted: no candidate ever originates from within the fence
or the inline span. -/
theorem strip_code_blocks_excision (a b c : List Char)
    (ha : ∀ x ∈ a, ¬ (x = btick)) (hb : ∀ x ∈ b, ¬ (x = btick))
    (hc : ∀ x ∈ c, ¬ (x = btick)) :
    stripCodeBlocks (a ++ (fenceLit ++ (b ++ (fenceLit ++ c)))) = a ++ c ∧
    stripCodeBlocks (a ++ (btick :: (b ++ (btick :: c)))) = a ++ c ∧
    stripCodeBlocks (a ++ c) = a ++ c ∧
    extractSteamCandidatesFromText (a ++ (fenceLit ++ (b ++ (fenceLit ++ c)))) =
      extractSteamCandidatesFromText (a ++ c) ∧
    extractSteamCandidatesFromText (a ++ (btick :: (b ++ (btick :: c)))) =
      extractSteamCandidatesFromText (a ++ c) ∧
    extractGroupCandidatesFromText (a ++ (fenceLit ++ (b ++ (fenceLit ++ c)))) =
      extractGroupCandidatesFromText (a ++ c) := by
  have hac : ∀ x ∈ a ++ c, ¬ (x = btick) := by
    intro x hx
    rcases List.mem_append.mp hx with hx | hx
    · exact ha x hx
    · exact hc x hx
  have h3 : stripCodeBlocks (a ++ c) = a ++ c := by
    unfold stripCodeBlocks stripFences stripInline
    rw [stripFencesAux_no_btick hac _ (le_refl _),
      stripInlineAux_no_btick hac _ (le_refl _)]
  have h1 : stripCodeBlocks (a ++ (fenceLit ++ (b ++ (fenceLit ++ c)))) = a ++ c := by
    unfold stripCodeBlocks stripFences stripInline
    rw [stripFencesAux_cut a _ ha hb hc (by
      simp [List.length_append, fenceLit]; omega)]
    rw [stripInlineAux_no_btick hac _ (by simp [List.length_append])]
  have h2 : stripCodeBlocks (a ++ (btick :: (b ++ (btick :: c)))) = a ++ c := by
    unfold stripCodeBlocks stripFences stripInline
    rw [stripFencesAux_single a _ ha hb hc (le_refl _)]
    rw [stripInlineAux_cut a _ ha hb hc (by
      simp [List.length_append]; omega)]
  refine ⟨h1, h2, h3, ?_, ?_, ?_⟩
  · simp only [extractSteamCandidatesFromText, h1, h3]
  · simp only [extractSteamCandidatesFromText, h2, h3]
  · simp only [extractGroupCandidatesFromText, h1, h3]

/-- C9 witness: a concrete fenced Steam profile URL is not extracted — the
result equals extraction on the text with the fence removed. -/
theorem strip_code_blocks_excision_witness :
    extractSteamCandidatesFromText ("see ".data ++ (fenceLit ++
      ("steamcommunity.com/profiles/765611980000000001".data ++
        (fenceLit ++ " ok".data)))) =
      extractSteamCandidatesFromText ("see ".data ++ " ok".data) :=
  (strip_code_blocks_excision "see ".data
    "steamcommunity.com/profiles/765611980000000001".data " ok".data
    (by decide) (by decide) (by decide)).2.2.2.1

end SteamPermaLink
